import Mathlib

/-!
# Verification of the `autofile` filesystem model (`autofile/model.py`)

This file gives a shallow embedding of `autofile/model.py` and proves the
specified properties of it.

Modelling choices:

* A filesystem path is a list of path segments below the root; the absolute
  path `/tmp/x` is `["tmp", "x"]`.  The assertions in `DataSeries.path`
  (`_path_is_relative`, `_path_has_depth`) force every relative path that is
  ever joined onto a prefix to be a normalized, dot-free relative string, so
  joining is list append and the segment representation is faithful on all
  inputs that pass the assertions.
* The filesystem is an explicit state `FS`: a list of existing directories
  and an association list of file contents.  Mutating operations return an
  `FsResult`, which carries the (possibly partially updated) filesystem even
  on error — Python exceptions do not roll back earlier `os` calls.
* Python exceptions become constructors of `Err`.  `assert` failures are
  `Err.assertionError`, `raise ValueError(...)` is `Err.valueError`, and the
  errors raised by the `os`/`shutil` layer keep their Python names.
* `DataSeries.existing` is recursive in a way that is not structurally
  bounded (it re-enters itself on locator prefixes read back from disk), so
  the embedding takes an explicit `fuel` argument modelling the Python call
  stack; `fuel = 0` returns `Err.recursionError` (Python's `RecursionError`).
* Functions of the standard library (`os.path.join`, `os.makedirs`, `glob`,
  `shutil.rmtree`, `sorted`) are modelled by their documented POSIX
  behaviour on the segment representation.
-/

/-- Python exception kinds arising in `autofile/model.py`. -/
inductive Err : Type where
  /-- a failed `assert`, with the asserted condition as message -/
  | assertionError : String → Err
  /-- `raise ValueError(msg)` -/
  | valueError : String → Err
  /-- `FileExistsError` from `os.makedirs` -/
  | fileExistsError : Err
  /-- `NotADirectoryError` from the `os` layer -/
  | notADirectoryError : Err
  /-- `FileNotFoundError` from `os.remove` -/
  | fileNotFoundError : Err
  /-- `IsADirectoryError` from `os.remove` on a directory -/
  | isADirectoryError : Err
  /-- `AttributeError` from calling a method on `None` -/
  | attributeError : Err
  /-- `RecursionError`: the modelling fuel ran out -/
  | recursionError : Err
  deriving Repr, DecidableEq

/-- The filesystem state: the set of existing directories (as segment lists
below the root) and the contents of regular files.  Writing a file conses a
new entry; `List.lookup` returns the newest, so shadowed entries are dead. -/
structure FS : Type where
  dirs : List (List String)
  files : List (List String × String)
  deriving Repr, DecidableEq

/-- Result of a mutating filesystem operation.  `err` keeps the filesystem
state at the moment the exception was raised (Python does not roll back). -/
inductive FsResult : Type where
  | ok : FS → FsResult
  | err : Err → FS → FsResult
  deriving Repr, DecidableEq

/-- Equality of `Except` results is decidable (needed to settle concrete
runs of the read-only operations by `decide`). -/
instance {E A : Type} [DecidableEq E] [DecidableEq A] : DecidableEq (Except E A)
  | .ok a, .ok b =>
    if h : a = b then .isTrue (by simp [h]) else .isFalse (by simp [h])
  | .ok _, .error _ => .isFalse (by simp)
  | .error _, .ok _ => .isFalse (by simp)
  | .error e, .error f =>
    if h : e = f then .isTrue (by simp [h]) else .isFalse (by simp [h])

/-- `os.path.isdir`. -/
def FS.isDir (fs : FS) (p : List String) : Bool :=
  fs.dirs.contains p

/-- `os.path.isfile`. -/
def FS.isFile (fs : FS) (p : List String) : Bool :=
  (fs.files.lookup p).isSome

/-- `os.path.exists`. -/
def FS.pathExists (fs : FS) (p : List String) : Bool :=
  fs.isDir p || fs.isFile p

/-- The nonempty prefixes of a path, shortest first, ending with the path
itself: the chain of directories `os.makedirs` has to ensure exist. -/
def ancestors (p : List String) : List (List String) :=
  (List.range p.length).map (fun i => p.take (i + 1))

/-- `os.makedirs(p)` (default `exist_ok=False`): error if `p` already
exists, error if some ancestor exists as a regular file, otherwise create
every missing directory along the chain. -/
def FS.makedirs (fs : FS) (p : List String) : FsResult :=
  if fs.pathExists p then .err .fileExistsError fs
  else if (ancestors p).any fs.isFile then .err .notADirectoryError fs
  else .ok ⟨fs.dirs ++ (ancestors p).filter (fun q => !fs.isDir q), fs.files⟩

/-- Modelled from the spec: `autofile.io_.write_file` (raw file I/O, §6) —
writes `val` to the file at `p`, overwriting any existing content.  The new
entry shadows older ones under `List.lookup`. -/
def FS.write_file (fs : FS) (p : List String) (val : String) : FS :=
  ⟨fs.dirs, (p, val) :: fs.files⟩

/-- Modelled from the spec: `autofile.io_.read_file` (raw file I/O, §6) —
returns the content of the file at `p`.  Callers in `model.py` only invoke
it after an existence check, so the default for a missing file is inert. -/
def FS.read_file (fs : FS) (p : List String) : String :=
  (fs.files.lookup p).getD ""

/-- `os.remove(p)`: delete a regular file. -/
def FS.osRemove (fs : FS) (p : List String) : FsResult :=
  if fs.isDir p then .err .isADirectoryError fs
  else if fs.isFile p then
    .ok ⟨fs.dirs, fs.files.filter (fun e => !(e.1 == p))⟩
  else .err .fileNotFoundError fs

/-- `shutil.rmtree(p)`: delete the directory `p` and everything beneath. -/
def FS.rmtree (fs : FS) (p : List String) : FsResult :=
  if fs.isDir p then
    .ok ⟨fs.dirs.filter (fun q => !p.isPrefixOf q),
         fs.files.filter (fun e => !p.isPrefixOf e.1)⟩
  else .err .notADirectoryError fs

/-- Keep the first occurrence of every name: `os.scandir` yields each entry
name once (the model's path lists may mention a path twice). -/
def dedupNames : List String → List String
  | [] => []
  | a :: as => a :: (dedupNames as).filter (fun b => !(b == a))

/-- The directory entry names directly inside `p` (what `os.scandir` would
list): the last segments of existing paths that extend `p` by one segment. -/
def FS.entryNames (fs : FS) (p : List String) : List String :=
  if fs.isDir p then
    dedupNames ((fs.dirs ++ fs.files.map Prod.fst).filterMap (fun q =>
      if q.length == p.length + 1 && p.isPrefixOf q then q.getLast? else none))
  else []

/-- Does the entry name start with a dot?  `glob`'s `*` never matches
hidden entries. -/
def hiddenName (nm : String) : Bool :=
  match nm.data with
  | [] => false
  | c :: _ => c = '.'

/-- `glob.glob(os.path.join(p, *('*' * d)))`: expand `d` wildcard segments
under `p`.  A `*` matches any entry name not starting with a dot.  With
`d = 0` the pattern is the literal path `p`. -/
def FS.glob (fs : FS) (p : List String) : Nat → List (List String)
  | 0 => if fs.pathExists p then [p] else []
  | d + 1 =>
    ((fs.entryNames p).filter (fun nm => !hiddenName nm)).flatMap
      (fun nm => fs.glob (p ++ [nm]) d)

/-- Render a segment list as the absolute path string it stands for. -/
def renderAbs (p : List String) : String :=
  "/" ++ String.intercalate "/" p

/-- Lexicographic comparison of character lists by code point: exactly how
Python compares the two path strings in `sorted`. -/
def charListLe : List Char → List Char → Bool
  | [], _ => true
  | _ :: _, [] => false
  | a :: as, b :: bs => if a = b then charListLe as bs else decide (a < b)

/-- `a <= b` on the rendered absolute path strings. -/
def pathLeB (a b : List String) : Bool :=
  charListLe (renderAbs a).data (renderAbs b).data

/-- Insert into a sorted list of paths, keeping ascending order. -/
def insertPath (a : List String) : List (List String) → List (List String)
  | [] => [a]
  | b :: bs => if pathLeB a b then a :: b :: bs else b :: insertPath a bs

/-- Python `sorted` on the rendered absolute path strings (line 214 of
`model.py` sorts the glob results lexicographically): a stable ascending
sort. -/
def sortPaths : List (List String) → List (List String)
  | [] => []
  | a :: l => insertPath a (sortPaths l)

/-! ## `DataFile` (`model.py` lines 11–77) -/

/-- `class DataFile`: file manager for a given datatype.  `α` is the Python
value type handled by the reader/writer pair. -/
structure DataFile (α : Type) : Type where
  name : String
  writer_ : α → String
  reader_ : String → α
  removable : Bool

/-- `DataFile.__init__` (lines 14–28).  The parameter list has no
`removable` argument (the docstring mentions one, the signature does not);
`self.removable` is always initialized to `False`. -/
def DataFile.init {α : Type} (name : String) (writer_ : α → String)
    (reader_ : String → α) : DataFile α :=
  ⟨name, writer_, reader_, false⟩

/-- `DataFile.path` (line 30): `os.path.join(dir_pth, self.name)`. -/
def DataFile.path {α : Type} (f : DataFile α) (dir_pth : List String) : List String :=
  dir_pth ++ [f.name]

/-- `DataFile.exists` (line 35): `os.path.isfile(self.path(dir_pth))`. -/
def DataFile.exists_ {α : Type} (f : DataFile α) (fs : FS) (dir_pth : List String) : Bool :=
  fs.isFile (f.path dir_pth)

/-- `DataFile.write` (line 41): assert the directory path exists, encode the
value with `writer_` and write it to `self.path(dir_pth)`. -/
def DataFile.write {α : Type} (f : DataFile α) (val : α) (fs : FS)
    (dir_pth : List String) : FsResult :=
  if fs.pathExists dir_pth then
    .ok (fs.write_file (f.path dir_pth) (f.writer_ val))
  else .err (.assertionError "No path exists") fs

/-- `DataFile.read` (line 51): assert the file exists, read it and decode
with `reader_`. -/
def DataFile.read {α : Type} (f : DataFile α) (fs : FS)
    (dir_pth : List String) : Except Err α :=
  if f.exists_ fs dir_pth then
    .ok (f.reader_ (fs.read_file (f.path dir_pth)))
  else .error (.assertionError "Requested path does not exist")

/-- `DataFile.remove` (line 63): only possible if `removable` is `True`,
otherwise `raise ValueError`. -/
def DataFile.remove {α : Type} (f : DataFile α) (fs : FS)
    (dir_pth : List String) : FsResult :=
  if f.removable then fs.osRemove (f.path dir_pth)
  else .err (.valueError "This data series is not removable") fs

/-! ## Path validation helpers (`model.py` lines 299–324) -/

/-- Split a character list at every occurrence of a separator.  Splitting
the empty list gives one empty component, as `str.split('/')` does in
Python. -/
def splitChar (sep : Char) : List Char → List (List Char)
  | [] => [[]]
  | c :: rest =>
    match splitChar sep rest with
    | [] => [[c]]
    | g :: gs => if c = sep then [] :: g :: gs else (c :: g) :: gs

/-- Split a path string into its `/`-separated components. -/
def splitSlash (pth : String) : List String :=
  (splitChar '/' pth.data).map (fun cs => ⟨cs⟩)

/-- `_os_path_split_all` (line 311): split a path into its components.  On
the normalized dot-free relative strings that pass `_path_is_relative` —
the only inputs it receives in `model.py` — repeated `os.path.split` agrees
with splitting on `/`. -/
def _os_path_split_all (pth : String) : List String :=
  splitSlash pth

/-- `_path_is_relative` (line 299): `os.path.relpath(pth) == pth`, i.e. the
path is relative and already in normal form.  The model restricts normal
form to dot-free paths: every `/`-component nonempty and none equal to `.`
or `..` (this also rules out a leading `/`).  Python additionally accepts
`"."` and paths with a leading run of `".."` components; such map outputs
are outside this model. -/
def _path_is_relative (pth : String) : Bool :=
  (splitSlash pth).all (fun c => c != "" && c != "." && c != "..")

/-- `_path_has_depth` (line 305): the path has exactly `depth` components. -/
def _path_has_depth (pth : String) (depth : Nat) : Bool :=
  (_os_path_split_all pth).length == depth

/-! ## `DataSeries` (`model.py` lines 80–248) -/

/-- The per-level attributes of a `DataSeries` set by `__init__`
(lines 84–102), except for the `root` reference. -/
structure DSCore (β : Type) : Type where
  /-- `self.prefix`, stored as an absolute path -/
  pfx : List String
  /-- `self.map_`: maps `nlocs` locators to a relative path string of
  `depth` segments -/
  map_ : List β → String
  nlocs : Nat
  depth : Nat
  /-- `self.loc_dfile`: optional locator `DataFile`; it serializes the
  self-locator tuple of a directory -/
  loc_dfile : Option (DataFile (List β))
  removable : Bool

/-- `class DataSeries`: a directory manager, optionally rooted inside
another `DataSeries` (`self.root = root_ds`).  `base` is `root_ds=None`,
`rooted` carries the parent series. -/
inductive DataSeries (β : Type) : Type where
  | base : DSCore β → DataSeries β
  | rooted : DSCore β → DataSeries β → DataSeries β

namespace DataSeries

variable {β : Type}

/-- The own attributes of a series. -/
def core : DataSeries β → DSCore β
  | .base c => c
  | .rooted c _ => c

/-- `self.root`: the optional root series. -/
def root : DataSeries β → Option (DataSeries β)
  | .base _ => none
  | .rooted _ r => some r

/-- `_self_locators` (line 227): the trailing `nlocs` locators, after
asserting `len(locs) >= self.nlocs`.  (Callers below inline the length
assertion; this is the unchecked slice.) -/
def _self_locators (s : DataSeries β) (locs : List β) : List β :=
  locs.drop (locs.length - s.core.nlocs)

/-- `_root_locators` (line 235): the leading `len(locs) - nlocs` locators. -/
def _root_locators (s : DataSeries β) (locs : List β) : List β :=
  locs.take (locs.length - s.core.nlocs)

/-- The tail of `DataSeries.path` after the prefix is resolved
(lines 124–129): assert `len(locs) == self.nlocs`, apply `map_`, assert the
result is a normal relative path of exactly `depth` segments, and join. -/
def pathTail (c : DSCore β) (prefix_ : List String) (locs : List β) :
    Except Err (List String) :=
  if locs.length != c.nlocs then
    .error (.assertionError "len(locs) == self.nlocs")
  else
    let pth := c.map_ locs
    if !_path_is_relative pth then
      .error (.assertionError "_path_is_relative(pth)")
    else if !_path_has_depth pth c.depth then
      .error (.assertionError "_path_has_depth(pth, self.depth)")
    else .ok (prefix_ ++ _os_path_split_all pth)

/-- `DataSeries.path` (lines 115–129): with no root the prefix is
`self.prefix`; with a root, split the locators (asserting
`len(locs) >= self.nlocs`), resolve the root's path on the leading part and
this series' map on the trailing part, and join. -/
def path : DataSeries β → List β → Except Err (List String)
  | .base c, locs => pathTail c c.pfx locs
  | .rooted c r, locs =>
    if locs.length < c.nlocs then
      .error (.assertionError "nlocs >= self.nlocs")
    else
      match r.path (locs.take (locs.length - c.nlocs)) with
      | .error e => .error e
      | .ok prefix_ => pathTail c prefix_ (locs.drop (locs.length - c.nlocs))

/-- `DataSeries.exists` (line 131): `os.path.isdir(self.path(locs))`. -/
def exists_ (s : DataSeries β) (fs : FS) (locs : List β) : Except Err Bool :=
  match s.path locs with
  | .error e => .error e
  | .ok pth => .ok (fs.isDir pth)

/-- `DataSeries.remove` (lines 137–147): only possible if `removable`;
remove the directory tree if it exists, do nothing if it does not. -/
def remove (s : DataSeries β) (fs : FS) (locs : List β) : FsResult :=
  if s.core.removable then
    match s.path locs with
    | .error e => .err e fs
    | .ok pth =>
      match s.exists_ fs locs with
      | .error e => .err e fs
      | .ok true => fs.rmtree pth
      | .ok false => .ok fs
  else .err (.valueError "This data series is not removable") fs

/-- `DataSeries.root_locator_count` (lines 217–224): total locator arity
consumed by the root chain. -/
def root_locator_count : DataSeries β → Nat
  | .base _ => 0
  | .rooted _ r => r.core.nlocs + r.root_locator_count

/-- The non-recursive part of `DataSeries.create` (lines 157–164): if this
series' own directory does not exist yet, `os.makedirs` it and, when a
`loc_dfile` is configured, write the self-locator tuple into it. -/
def createHere (s : DataSeries β) (fs : FS) (locs : List β) : FsResult :=
  match s.exists_ fs locs with
  | .error e => .err e fs
  | .ok true => .ok fs
  | .ok false =>
    match s.path locs with
    | .error e => .err e fs
    | .ok pth =>
      match fs.makedirs pth with
      | .err e fs' => .err e fs'
      | .ok fs' =>
        match s.core.loc_dfile with
        | none => .ok fs'
        | some df =>
          if locs.length < s.core.nlocs then
            .err (.assertionError "nlocs >= self.nlocs") fs'
          else df.write (locs.drop (locs.length - s.core.nlocs)) fs' pth

/-- `DataSeries.create` (lines 149–164): recursively create the root chain
for the leading locators, then create this series' own directory. -/
def create : DataSeries β → FS → List β → FsResult
  | .base c, fs, locs => createHere (.base c) fs locs
  | .rooted c r, fs, locs =>
    if locs.length < c.nlocs then
      .err (.assertionError "nlocs >= self.nlocs") fs
    else
      match r.create fs (locs.take (locs.length - c.nlocs)) with
      | .err e fs' => .err e fs'
      | .ok fs' => createHere (.rooted c r) fs' locs

/-- `DataSeries._existing_paths` (lines 204–215): glob `depth` wildcard
segments under the resolved prefix, keep directories, sort.  (Line 214's
`os.path.join(prefix, pth)` is the identity here because glob already
returns absolute paths.) -/
def _existing_paths (s : DataSeries β) (fs : FS) (root_locs : List β) :
    Except Err (List (List String)) :=
  match (match s.root with
         | none => .ok s.core.pfx
         | some r => r.path root_locs : Except Err (List String)) with
  | .error e => .error e
  | .ok prefix_ =>
    .ok (sortPaths ((fs.glob prefix_ s.core.depth).filter fs.isDir))

/-- `tuple(self.loc_dfile.read(pth) for pth in pths ...)` (line 197): read
the locator file of each path in order, propagating the first error. -/
def readLocs (df : DataFile (List β)) (fs : FS) :
    List (List String) → Except Err (List (List β))
  | [] => .ok []
  | p :: ps =>
    match df.read fs p with
    | .error e => .error e
    | .ok l =>
      match readLocs df fs ps with
      | .error e => .error e
      | .ok ls => .ok (l :: ls)

/-- `DataSeries.existing` (lines 166–202).  `fuel` models the Python call
stack (the recursion is driven by data read back from disk and need not
terminate structurally); `fuel = 0` is a `RecursionError`.

With `nlocs == 0` the series produces a single directory: report `([],)` if
it exists.  Otherwise a locator `DataFile` is required.  If the supplied
`root_locs` are shorter than the full root arity, recurse: re-enter
`existing` on each element of `self.root.existing(root_locs)` — all the
inner calls use the *default* `relative=False` — and chain the results
left to right (`tuple(itertools.chain(...))`, expressed as a right fold).
Otherwise glob the filesystem, read back the self-locator tuple of every
directory that has a readable locator file, and prepend `root_locs` unless
`relative` is true. -/
def existing (s : DataSeries β) (fs : FS) :
    Nat → List β → Bool → Except Err (List (List β))
  | 0, _, _ => .error .recursionError
  | fuel + 1, root_locs, relative =>
    if s.core.nlocs = 0 then
      match s.exists_ fs [] with
      | .error e => .error e
      | .ok ex => .ok (if ex then [[]] else [])
    else
      match s.core.loc_dfile with
      | none =>
        .error (.valueError "This function does not work without a locator DataFile")
      | some df =>
        if root_locs.length < s.root_locator_count then
          match s.root with
          | none => .error .attributeError
          | some r =>
            match r.existing fs fuel root_locs false with
            | .error e => .error e
            | .ok rls =>
              rls.foldr
                (fun rl acc =>
                  match existing s fs fuel rl false with
                  | .error e => .error e
                  | .ok ls =>
                    match acc with
                    | .error e => .error e
                    | .ok more => .ok (ls ++ more))
                (.ok [])
        else
          if root_locs.length != s.root_locator_count then
            .error (.assertionError "root_nlocs == len(root_locs)")
          else
            match s._existing_paths fs root_locs with
            | .error e => .error e
            | .ok pths =>
              match readLocs df fs (pths.filter (fun p => df.exists_ fs p)) with
              | .error e => .error e
              | .ok locs_lst =>
                .ok (if !relative then locs_lst.map (root_locs ++ ·) else locs_lst)

end DataSeries

/-! ## `DataSeries.__init__` (`model.py` lines 84–102) -/

/-- `os.path.abspath(p)` relative to the (absolute) current working
directory `cwd`: `normpath(join(cwd, p))`.  Empty and `.` components
vanish, `..` pops a segment (staying at the root when there is none), and a
leading `/` restarts from the root. -/
def abspathSegs (cwd : List String) (p : String) : List String :=
  (splitSlash p).foldl
    (fun acc c =>
      if c = "" || c = "." then acc
      else if c = ".." then acc.dropLast
      else acc ++ [c])
    (match p.data with
     | '/' :: _ => []
     | _ => cwd)

/-- `DataSeries.__init__` (lines 84–102): assert the supplied prefix is an
existing directory (`os.path.isdir` resolves a relative prefix against the
working directory) and store `os.path.abspath(prefix)`. -/
def DataSeries.init {β : Type} (fs : FS) (cwd : List String) (prefix_ : String)
    (map_ : List β → String) (nlocs depth : Nat)
    (loc_dfile : Option (DataFile (List β)) := none)
    (root_ds : Option (DataSeries β) := none) (removable : Bool := false) :
    Except Err (DataSeries β) :=
  if fs.isDir (abspathSegs cwd prefix_) then
    .ok (match root_ds with
      | none => .base ⟨abspathSegs cwd prefix_, map_, nlocs, depth, loc_dfile, removable⟩
      | some r => .rooted ⟨abspathSegs cwd prefix_, map_, nlocs, depth, loc_dfile, removable⟩ r)
  else .error (.assertionError "Path is not a dir")

/-! ## `DataSeriesFile` (`model.py` lines 251–296) -/

/-- `class DataSeriesFile`: file manager mapping locator values to files in
a directory series.  `β` is the locator value type, `α` the file's value
type. -/
structure DataSeriesFile (β α : Type) : Type where
  dir : DataSeries β
  file : DataFile α
  removable : Bool

/-- `DataSeriesFile.__init__` (lines 255–258): store the series and the
file; `self.removable` is set to `False` unconditionally. -/
def DataSeriesFile.init {β α : Type} (ds : DataSeries β) (dfile : DataFile α) :
    DataSeriesFile β α :=
  ⟨ds, dfile, false⟩

namespace DataSeriesFile

variable {β α : Type}

/-- `DataSeriesFile.path` (line 260). -/
def path (dsf : DataSeriesFile β α) (locs : List β) : Except Err (List String) :=
  match dsf.dir.path locs with
  | .error e => .error e
  | .ok d => .ok (dsf.file.path d)

/-- `DataSeriesFile.exists` (line 265). -/
def exists_ (dsf : DataSeriesFile β α) (fs : FS) (locs : List β) : Except Err Bool :=
  match dsf.dir.path locs with
  | .error e => .error e
  | .ok d => .ok (dsf.file.exists_ fs d)

/-- `DataSeriesFile.write` (line 270). -/
def write (dsf : DataSeriesFile β α) (val : α) (fs : FS) (locs : List β) : FsResult :=
  match dsf.dir.path locs with
  | .error e => .err e fs
  | .ok d => dsf.file.write val fs d

/-- `DataSeriesFile.read` (line 275). -/
def read (dsf : DataSeriesFile β α) (fs : FS) (locs : List β) : Except Err α :=
  match dsf.dir.path locs with
  | .error e => .error e
  | .ok d => dsf.file.read fs d

/-- `DataSeriesFile.remove` (lines 280–289): only possible if the pairing's
own `removable` flag is `True`; deletes via `os.remove`. -/
def remove (dsf : DataSeriesFile β α) (fs : FS) (locs : List β) : FsResult :=
  if dsf.removable then
    match dsf.path locs with
    | .error e => .err e fs
    | .ok p => fs.osRemove p
  else .err (.valueError "This data series is not removable") fs

end DataSeriesFile

/-- Calling `create` once for each locator tuple of a list, in order,
stopping at the first error: the driver of the enumeration scenario. -/
def createAll {β : Type} (s : DataSeries β) (fs : FS) : List (List β) → FsResult
  | [] => .ok fs
  | l :: ls =>
    match s.create fs l with
    | .err e fs' => .err e fs'
    | .ok fs' => createAll s fs' ls

/-!
## Concrete instances used by witnesses and counterexamples

A small executable locator codec and a few tiny series/filesystems, used to
instantiate the theorems below on closed inputs.
-/

/-- Decimal digits to a natural number. -/
def natOfDigits (cs : List Char) : Nat :=
  cs.foldl (fun n c => n * 10 + (c.toNat - 48)) 0

/-- Serialize a locator tuple of naturals as comma-separated decimals. -/
def natsWriter (l : List Nat) : String :=
  String.intercalate "," (l.map toString)

/-- Parse a comma-separated list of decimals back into a locator tuple. -/
def natsReader (s : String) : List Nat :=
  (splitChar ',' s.data).map natOfDigits

/-- A locator `DataFile` with the decimal codec. -/
def exLocDf : DataFile (List Nat) := DataFile.init "locs" natsWriter natsReader

/-- A rootless series at `/tmp/x` with one locator rendered as one decimal
path segment. -/
def exSeries : DataSeries Nat :=
  .base ⟨["tmp", "x"], fun l => match l with | [a] => toString a | _ => "",
         1, 1, some exLocDf, false⟩

/-- A filesystem holding just the (empty) prefix directory `/tmp/x`. -/
def exFs : FS := ⟨[["tmp"], ["tmp", "x"]], []⟩

/-- `exFs` after `exSeries.create([1])`. -/
def exFs1 : FS :=
  ⟨[["tmp"], ["tmp", "x"], ["tmp", "x", "1"]], [(["tmp", "x", "1", "locs"], "1")]⟩

/-! ## Claim C9 -/

/-- Claim C9: the `DataFile` constructor accepts no `removable` argument
(despite its docstring listing one) and always initializes `removable` to
`False`, so `remove` on a freshly constructed `DataFile` fails with the
permission-guard `ValueError` on any directory argument, leaving the
filesystem untouched. -/
theorem dataFile_init_forces_not_removable {α : Type} (name : String)
    (w : α → String) (r : String → α) (fs : FS) (dir_pth : List String) :
    (DataFile.init name w r).removable = false ∧
    (DataFile.init name w r).remove fs dir_pth =
      .err (.valueError "This data series is not removable") fs :=
  ⟨rfl, rfl⟩

/-! ## Claim C8 -/

/-- A `DataFile` whose `removable` attribute has been mutated to `True`
after construction. -/
def exRemovableDf : DataFile Nat :=
  { DataFile.init "a" (fun _ => "") (fun _ => 0) with removable := true }

/-- Counterexample to claim C8: pairing `exSeries` with a `DataFile` whose
`removable` flag is `True` yields a `DataSeriesFile` whose `removable` flag
is `False` — the flag does not mirror the underlying file binding's, and
`remove` consults only the pairing's own flag. -/
theorem dataSeriesFile_removable_not_mirrored_cex :
    exRemovableDf.removable = true ∧
    (DataSeriesFile.init exSeries exRemovableDf).removable ≠ exRemovableDf.removable ∧
    (DataSeriesFile.init exSeries exRemovableDf).remove exFs [1] =
      .err (.valueError "This data series is not removable") exFs := by
  refine ⟨rfl, ?_, rfl⟩
  decide

/-- Claim C8 (amended): `DataSeriesFile.__init__` sets `removable` to
`False` unconditionally — independent state, not a mirror of the underlying
`DataFile`'s flag (the two agree only when the file's flag is `False`, as
it is right after `DataFile` construction) — and `remove` consults only the
pairing's own flag, so it always fails on a freshly constructed pairing. -/
theorem dataSeriesFile_removable_independent {β α : Type} (ds : DataSeries β)
    (dfile : DataFile α) (fs : FS) (locs : List β) :
    (DataSeriesFile.init ds dfile).removable = false ∧
    (dfile.removable = false →
      (DataSeriesFile.init ds dfile).removable = dfile.removable) ∧
    (DataSeriesFile.init ds dfile).remove fs locs =
      .err (.valueError "This data series is not removable") fs :=
  ⟨rfl, fun h => h.symm, rfl⟩

/-- Witness for the amended claim C8, at a concrete freshly constructed
pairing. -/
theorem dataSeriesFile_removable_independent_witness :
    (DataSeriesFile.init exSeries exLocDf).removable = false ∧
    (DataSeriesFile.init exSeries exLocDf).removable = exLocDf.removable ∧
    (DataSeriesFile.init exSeries exLocDf).remove exFs [1] =
      .err (.valueError "This data series is not removable") exFs :=
  ⟨(dataSeriesFile_removable_independent exSeries exLocDf exFs [1]).1,
   (dataSeriesFile_removable_independent exSeries exLocDf exFs [1]).2.1 rfl,
   (dataSeriesFile_removable_independent exSeries exLocDf exFs [1]).2.2⟩

/-! ## Claim C6 -/

/-- Claim C6: on every `DataFile`, `DataSeries` or `DataSeriesFile` whose
`removable` flag is `False`, `remove` fails with the permission-guard
`ValueError` and the filesystem carried by the failure is exactly the input
filesystem — the failed call modifies nothing. -/
theorem remove_guard_not_removable {α β : Type} :
    (∀ (f : DataFile α) (fs : FS) (dir_pth : List String),
      f.removable = false →
      f.remove fs dir_pth = .err (.valueError "This data series is not removable") fs) ∧
    (∀ (s : DataSeries β) (fs : FS) (locs : List β),
      s.core.removable = false →
      s.remove fs locs = .err (.valueError "This data series is not removable") fs) ∧
    (∀ (dsf : DataSeriesFile β α) (fs : FS) (locs : List β),
      dsf.removable = false →
      dsf.remove fs locs = .err (.valueError "This data series is not removable") fs) := by
  refine ⟨fun f fs d h => ?_, fun s fs locs h => ?_, fun dsf fs locs h => ?_⟩
  · simp [DataFile.remove, h]
  · simp [DataSeries.remove, h]
  · simp [DataSeriesFile.remove, h]

/-- Witness for claim C6 at concrete non-removable instances of all three
classes. -/
theorem remove_guard_not_removable_witness :
    exLocDf.remove exFs ["tmp", "x"] =
      .err (.valueError "This data series is not removable") exFs ∧
    exSeries.remove exFs [1] =
      .err (.valueError "This data series is not removable") exFs ∧
    (DataSeriesFile.init exSeries exLocDf).remove exFs [1] =
      .err (.valueError "This data series is not removable") exFs :=
  ⟨(remove_guard_not_removable (β := Nat)).1 exLocDf exFs ["tmp", "x"] rfl,
   (remove_guard_not_removable (α := Nat)).2.1 exSeries exFs [1] rfl,
   (remove_guard_not_removable).2.2 (DataSeriesFile.init exSeries exLocDf) exFs [1] rfl⟩

/-! ## Claim C7 -/

/-- Claim C7: on a series with `nlocs > 0` and no configured `loc_dfile`,
`existing` fails with the `ValueError` raised at lines 181–183, whatever
`root_locs` and `relative` are; the failure happens before any filesystem
scan (the result does not depend on `fs`). -/
theorem existing_without_loc_dfile_fails {β : Type} (s : DataSeries β)
    (fs : FS) (fuel : Nat) (root_locs : List β) (relative : Bool)
    (hn : s.core.nlocs ≠ 0) (hdf : s.core.loc_dfile = none) :
    s.existing fs (fuel + 1) root_locs relative =
      .error (.valueError "This function does not work without a locator DataFile") := by
  rw [DataSeries.existing, if_neg hn, hdf]

/-- Witness for claim C7: a concrete rootless series with one locator and
no locator file. -/
theorem existing_without_loc_dfile_fails_witness :
    (DataSeries.base ⟨["tmp", "x"],
        (fun l => match l with | [a] => toString a | _ => ""),
        1, 1, none, false⟩ : DataSeries Nat).existing exFs 1 [] false =
      .error (.valueError "This function does not work without a locator DataFile") :=
  existing_without_loc_dfile_fails _ exFs 0 [] false (by decide) rfl

/-! ## Claim C4 -/

/-- Claim C4: read-after-write round trip for a `DataFile`.  If the codec
round-trips on `v` and the directory exists, then `write(v, dir)` succeeds
and a subsequent `read(dir)` returns exactly `v`. -/
theorem dataFile_read_after_write {α : Type} (f : DataFile α) (fs fs' : FS)
    (dir_pth : List String) (v : α)
    (hcodec : f.reader_ (f.writer_ v) = v)
    (hdir : fs.isDir dir_pth = true)
    (hw : f.write v fs dir_pth = .ok fs') :
    f.read fs' dir_pth = .ok v := by
  have hex : fs.pathExists dir_pth = true := by
    simp [FS.pathExists, hdir]
  rw [DataFile.write, if_pos hex] at hw
  cases hw
  have hfile : (fs.write_file (f.path dir_pth) (f.writer_ v)).isFile (f.path dir_pth) = true := by
    simp [FS.write_file, FS.isFile, List.lookup]
  rw [DataFile.read, DataFile.exists_, if_pos hfile]
  simp [FS.write_file, FS.read_file, List.lookup, hcodec]

/-- Witness for claim C4: an identity-codec file named `info.txt` written
into the existing directory `/tmp/x` with value `"hello"`. -/
theorem dataFile_read_after_write_witness :
    (DataFile.init "info.txt" (fun s => s) (fun s => s)).write "hello" exFs ["tmp", "x"] =
      .ok ⟨[["tmp"], ["tmp", "x"]], [(["tmp", "x", "info.txt"], "hello")]⟩ ∧
    (DataFile.init "info.txt" (fun s => s) (fun s => s)).read
      ⟨[["tmp"], ["tmp", "x"]], [(["tmp", "x", "info.txt"], "hello")]⟩ ["tmp", "x"] =
      .ok "hello" :=
  ⟨by decide,
   dataFile_read_after_write (DataFile.init "info.txt" (fun s => s) (fun s => s))
     exFs _ ["tmp", "x"] "hello" rfl (by decide) (by decide)⟩

/-! ## Claim C2 -/

/-- The series of the spec's scenario: `prefix=/tmp/x`, `nlocs=2`,
`depth=2`, `map_((a,b)) = "{a}/{b}"`, no locator file, no root. -/
def scenSeries : DataSeries Nat :=
  .base ⟨["tmp", "x"],
         fun l => match l with
           | [a, b] => toString a ++ "/" ++ toString b
           | _ => "",
         2, 2, none, false⟩

/-- Counterexample to claim C2 as stated: for the scenario series
(`nlocs = 2`, no root, so `nlocs` plus the root chain's arity is `2`), a
locator tuple of length `3 ≥ 2` does not resolve to the prefix joined with
`map_` of the trailing two locators — `path` raises the
`len(locs) == self.nlocs` assertion instead. -/
theorem path_longer_locators_cex :
    scenSeries.path [1, 2, 3] = .error (.assertionError "len(locs) == self.nlocs") ∧
    scenSeries.path [1, 2, 3] ≠
      .ok (["tmp", "x"] ++ _os_path_split_all (scenSeries.core.map_ [2, 3])) := by
  refine ⟨by decide, ?_⟩
  decide

/-- Claim C2 (amended): for a locator tuple of length *exactly* `nlocs`
plus the root chain's arity, `path` resolves the root's path on the leading
`locators[: len(locators) - nlocs]`, applies `map_` to the trailing
`locators[len(locators) - nlocs :]` and joins (provided the map output
passes the relativity/depth assertions); with no root the prefix is the
series' own prefix.  In particular the spec's scenario holds:
`path((1,2)) == "/tmp/x/1/2"`. -/
theorem path_root_split_join {β : Type} :
    (∀ (c : DSCore β) (locs : List β),
      locs.length = c.nlocs →
      _path_is_relative (c.map_ locs) = true →
      _path_has_depth (c.map_ locs) c.depth = true →
      (DataSeries.base c).path locs = .ok (c.pfx ++ _os_path_split_all (c.map_ locs))) ∧
    (∀ (c : DSCore β) (r : DataSeries β) (locs : List β) (prefix_ : List String),
      locs.length = c.nlocs + (r.core.nlocs + r.root_locator_count) →
      r.path (locs.take (locs.length - c.nlocs)) = .ok prefix_ →
      _path_is_relative (c.map_ (locs.drop (locs.length - c.nlocs))) = true →
      _path_has_depth (c.map_ (locs.drop (locs.length - c.nlocs))) c.depth = true →
      (DataSeries.rooted c r).path locs =
        .ok (prefix_ ++ _os_path_split_all (c.map_ (locs.drop (locs.length - c.nlocs))))) ∧
    (scenSeries.path [1, 2] = .ok ["tmp", "x", "1", "2"] ∧
      (scenSeries.path [1, 2]).map renderAbs = .ok "/tmp/x/1/2") := by
  refine ⟨fun c locs hlen hrel hdep => ?_, fun c r locs prefix_ hlen hroot hrel hdep => ?_,
    by decide, by decide⟩
  · simp [DataSeries.path, DataSeries.pathTail, hlen, hrel, hdep]
  · have hge : ¬ locs.length < c.nlocs := by omega
    have hdrop : (locs.drop (locs.length - c.nlocs)).length = c.nlocs := by
      simp [List.length_drop]; omega
    rw [DataSeries.path, if_neg hge, hroot]
    simp [DataSeries.pathTail, hdrop, hrel, hdep]

/-- Witness for the amended claim C2, instantiating the rooted clause on a
two-level chain: root consumes `[1]`, the child maps `[2]`, and the joined
result is `/tmp/x/1/2`. -/
theorem path_root_split_join_witness :
    (DataSeries.rooted
        ⟨["tmp", "x"], (fun l => match l with | [b] => toString b | _ => ""),
         1, 1, none, false⟩
        (DataSeries.base ⟨["tmp", "x"],
          (fun l => match l with | [a] => toString a | _ => ""),
          1, 1, none, false⟩) : DataSeries Nat).path [1, 2] =
      .ok ["tmp", "x", "1", "2"] :=
  (path_root_split_join (β := Nat)).2.1
    ⟨["tmp", "x"], (fun l => match l with | [b] => toString b | _ => ""), 1, 1, none, false⟩
    (DataSeries.base ⟨["tmp", "x"],
      (fun l => match l with | [a] => toString a | _ => ""), 1, 1, none, false⟩)
    [1, 2] ["tmp", "x", "1"] (by decide) (by decide) (by decide) (by decide)

/-! ## Claim C5 -/

/-- Locator file of the root level of the example chain. -/
def exRootDf : DataFile (List Nat) := DataFile.init "rloc" natsWriter natsReader

/-- Locator file of the child level of the example chain. -/
def exChildDf : DataFile (List Nat) := DataFile.init "cloc" natsWriter natsReader

/-- Root series of the example chain: one locator, one decimal segment
under `/p`. -/
def exRootSeries : DataSeries Nat :=
  .base ⟨["p"], fun l => match l with | [a] => toString a | _ => "",
         1, 1, some exRootDf, false⟩

/-- Child series rooted in `exRootSeries`: one own locator, one decimal
segment. -/
def exChainSeries : DataSeries Nat :=
  .rooted ⟨["p"], fun l => match l with | [b] => toString b | _ => "",
           1, 1, some exChildDf, false⟩ exRootSeries

/-- The chain's filesystem before any creation: just the prefix `/p`. -/
def exChainFs0 : FS := ⟨[["p"]], []⟩

/-- The chain's filesystem after `exChainSeries.create([1, 2])`. -/
def exChainFs : FS :=
  ⟨[["p"], ["p", "1"], ["p", "1", "2"]],
   [(["p", "1", "2", "cloc"], "2"), (["p", "1", "rloc"], "1")]⟩

/-- Counterexample to claim C5 as stated: on the two-level chain, after
creating locators `(1, 2)`, calling `existing` with a root prefix shorter
than the full root arity and `relative=True` does *not* return the bare
self-locator tuple `[2]`: the recursion's inner calls use the default
`relative=False`, so the result is the full tuple `[1, 2]`. -/
theorem existing_relative_ignored_cex :
    exChainSeries.create exChainFs0 [1, 2] = .ok exChainFs ∧
    exChainSeries.existing exChainFs 2 [] true = .ok [[1, 2]] ∧
    ([[1, 2]] : List (List Nat)) ≠ [[2]] := by
  refine ⟨by decide, by decide, by decide⟩

/-- Claim C5 (amended): when the supplied `root_locators` already have the
full root arity, `existing(root_locators, relative=False)` is
`existing(root_locators, relative=True)` with `root_locators` prepended to
each recovered self-locator tuple (so `relative=True` returns the bare
tuples); when `root_locators` is shorter, the recursion over the root chain
ignores the `relative` argument entirely — the inner calls use the default
`relative=False`, and the result is the same whatever `relative` is. -/
theorem existing_relative_flag {β : Type} :
    (∀ (s : DataSeries β) (fs : FS) (fuel : Nat) (root_locs : List β)
       (df : DataFile (List β)),
      s.core.nlocs ≠ 0 → s.core.loc_dfile = some df →
      root_locs.length = s.root_locator_count →
      s.existing fs (fuel + 1) root_locs false =
        (s.existing fs (fuel + 1) root_locs true).map
          (fun ls => ls.map (root_locs ++ ·))) ∧
    (∀ (s : DataSeries β) (fs : FS) (fuel : Nat) (root_locs : List β)
       (relative : Bool),
      root_locs.length < s.root_locator_count →
      s.existing fs fuel root_locs relative =
        s.existing fs fuel root_locs false) := by
  constructor
  · intro s fs fuel root_locs df hn hdf hlen
    have hlt : ¬ root_locs.length < s.root_locator_count := by omega
    have hne : (root_locs.length != s.root_locator_count) = false := by
      simp [hlen]
    simp only [DataSeries.existing, if_neg hn, hdf, if_neg hlt, hne, Bool.false_eq_true,
      if_false]
    split
    · rfl
    · split
      · rfl
      · rfl
  · intro s fs fuel root_locs relative hlt
    cases fuel with
    | zero => rfl
    | succ fuel =>
      by_cases h0 : s.core.nlocs = 0
      · simp only [DataSeries.existing, if_pos h0]
      · cases hdf : s.core.loc_dfile with
        | none => simp only [DataSeries.existing, if_neg h0, hdf]
        | some df => simp only [DataSeries.existing, if_neg h0, hdf, if_pos hlt]

/-- Witness for the amended claim C5, on the example chain with the full
root prefix `[1]`: `relative=False` prepends `[1]` to what `relative=True`
returns. -/
theorem existing_relative_flag_witness :
    exChainSeries.core.nlocs ≠ 0 ∧ [1].length = exChainSeries.root_locator_count ∧
    exChainSeries.existing exChainFs 2 [1] false =
      (exChainSeries.existing exChainFs 2 [1] true).map
        (fun ls => ls.map ([1] ++ ·)) ∧
    ([] : List Nat).length < exChainSeries.root_locator_count ∧
    exChainSeries.existing exChainFs 2 [] true =
      exChainSeries.existing exChainFs 2 [] false :=
  ⟨by decide, by decide,
   (existing_relative_flag (β := Nat)).1 exChainSeries exChainFs 1 [1] exChildDf
     (by decide) rfl (by decide),
   by decide,
   (existing_relative_flag (β := Nat)).2 exChainSeries exChainFs 2 [] true (by decide)⟩

/-! ## Claim C10 -/

/-- Claim C10: `DataSeries.__init__` fails with an assertion error whenever
the supplied prefix is not an existing directory (resolved against the
working directory); on success the stored prefix is `os.path.abspath` of
the supplied path, and every successful `path(locators)` result renders to
an absolute path string (leading `/`), even when the constructor was given
a relative prefix. -/
theorem dataSeries_init_requires_dir {β : Type} (fs : FS) (cwd : List String)
    (prefix_ : String) (map_ : List β → String) (nlocs depth : Nat)
    (loc_dfile : Option (DataFile (List β))) (root_ds : Option (DataSeries β))
    (removable : Bool) :
    (fs.isDir (abspathSegs cwd prefix_) = false →
      DataSeries.init fs cwd prefix_ map_ nlocs depth loc_dfile root_ds removable =
        .error (.assertionError "Path is not a dir")) ∧
    (∀ s, DataSeries.init fs cwd prefix_ map_ nlocs depth loc_dfile root_ds removable =
        .ok s →
      s.core.pfx = abspathSegs cwd prefix_ ∧
      ∀ (locs : List β) (pth : List String),
        s.path locs = .ok pth → (renderAbs pth).data.head? = some '/') := by
  constructor
  · intro h
    simp [DataSeries.init, h]
  · intro s h
    refine ⟨?_, fun locs pth _ => ?_⟩
    · rw [DataSeries.init.eq_def] at h
      by_cases hd : fs.isDir (abspathSegs cwd prefix_) = true
      · rw [if_pos hd] at h
        cases h
        cases root_ds with
        | none => rfl
        | some r => rfl
      · rw [if_neg hd] at h
        cases h
    · have : (renderAbs pth).data = '/' :: (String.intercalate "/" pth).data := by
        simp [renderAbs]
      simp [this]

/-- Witness for claim C10: constructing at the relative prefix `"x"` from
working directory `/tmp` succeeds (since `/tmp/x` exists in `exFs`), stores
the absolute `["tmp", "x"]`, and path results render with a leading `/`;
constructing at a non-existent prefix fails with the assertion error. -/
theorem dataSeries_init_requires_dir_witness :
    ((DataSeries.base ⟨["tmp", "x"],
        (fun l : List Nat => match l with | [a] => toString a | _ => ""),
        1, 1, none, false⟩ : DataSeries Nat).core.pfx = abspathSegs ["tmp"] "x") ∧
    (renderAbs ["tmp", "x", "1"]).data.head? = some '/' ∧
    DataSeries.init (β := Nat) exFs ["tmp"] "nope"
      (fun l => match l with | [a] => toString a | _ => "") 1 1 none none false =
      .error (.assertionError "Path is not a dir") :=
  have h2 := (dataSeries_init_requires_dir (β := Nat) exFs ["tmp"] "x"
    (fun l => match l with | [a] => toString a | _ => "") 1 1 none none false).2
    (DataSeries.base ⟨["tmp", "x"],
      (fun l => match l with | [a] => toString a | _ => ""), 1, 1, none, false⟩)
    rfl
  ⟨h2.1, h2.2 [1] ["tmp", "x", "1"] (by decide),
   (dataSeries_init_requires_dir (β := Nat) exFs ["tmp"] "nope"
     (fun l => match l with | [a] => toString a | _ => "") 1 1 none none false).1
     (by decide)⟩

/-! ## Claim C3: helper lemmas about `create` -/

/-- `splitChar` always produces at least one component. -/
theorem splitChar_ne_nil (sep : Char) (cs : List Char) : splitChar sep cs ≠ [] := by
  cases cs with
  | nil => simp [splitChar]
  | cons c rest =>
    simp only [splitChar]
    cases h : splitChar sep rest with
    | nil => simp
    | cons g gs =>
      by_cases hc : c = sep <;> simp [hc]

/-- A split path has at least one component. -/
theorem splitSlash_ne_nil (s : String) : splitSlash s ≠ [] := by
  simp [splitSlash, splitChar_ne_nil]

/-- Inversion for `pathTail`: a successful result is the prefix joined with
the split map output. -/
theorem pathTail_ok_inv {β : Type} {c : DSCore β} {prefix_ : List String}
    {locs : List β} {res : List String}
    (h : DataSeries.pathTail c prefix_ locs = .ok res) :
    locs.length = c.nlocs ∧ _path_is_relative (c.map_ locs) = true ∧
    _path_has_depth (c.map_ locs) c.depth = true ∧
    res = prefix_ ++ _os_path_split_all (c.map_ locs) := by
  unfold DataSeries.pathTail at h
  split at h
  · exact absurd h (by simp)
  next hlen =>
    dsimp only at h
    split at h
    · exact absurd h (by simp)
    next hrel =>
      split at h
      · exact absurd h (by simp)
      next hdep =>
        cases h
        refine ⟨by simpa using hlen, by simpa using hrel, by simpa using hdep, rfl⟩

/-- A successful `path` result is never the filesystem root. -/
theorem path_ok_ne_nil {β : Type} {s : DataSeries β} {locs : List β}
    {res : List String} (h : s.path locs = .ok res) : res ≠ [] := by
  cases s with
  | base c =>
    rw [DataSeries.path] at h
    obtain ⟨-, -, -, hres⟩ := pathTail_ok_inv h
    simp [hres, splitSlash_ne_nil, _os_path_split_all]
  | rooted c r =>
    rw [DataSeries.path] at h
    split at h
    · exact absurd h (by simp)
    · split at h
      · exact absurd h (by simp)
      next pr hpr =>
        obtain ⟨-, -, -, hres⟩ := pathTail_ok_inv h
        simp [hres, splitSlash_ne_nil, _os_path_split_all]

/-- Membership formulation of `FS.isDir`. -/
theorem isDir_iff_mem {fs : FS} {p : List String} :
    fs.isDir p = true ↔ p ∈ fs.dirs := by
  simp [FS.isDir]

/-- A nonempty path is among its own ancestors. -/
theorem self_mem_ancestors {p : List String} (h : p ≠ []) : p ∈ ancestors p := by
  have hl : 0 < p.length := List.length_pos.mpr h
  refine List.mem_map.mpr ⟨p.length - 1, ?_, ?_⟩
  · exact List.mem_range.mpr (by omega)
  · rw [Nat.sub_add_cancel hl, List.take_length]

/-- Inversion for a successful `makedirs`. -/
theorem makedirs_ok_inv {fs fs' : FS} {p : List String}
    (h : fs.makedirs p = .ok fs') :
    fs'.dirs = fs.dirs ++ (ancestors p).filter (fun q => !fs.isDir q) ∧
    fs'.files = fs.files := by
  unfold FS.makedirs at h
  split at h
  · exact absurd h (by simp)
  · split at h
    · exact absurd h (by simp)
    · cases h
      exact ⟨rfl, rfl⟩

/-- `makedirs` creates the requested directory. -/
theorem makedirs_ok_isDir {fs fs' : FS} {p : List String}
    (h : fs.makedirs p = .ok fs') (hne : p ≠ []) : fs'.isDir p = true := by
  obtain ⟨hd, -⟩ := makedirs_ok_inv h
  rw [isDir_iff_mem, hd, List.mem_append]
  by_cases hp : fs.isDir p = true
  · exact Or.inl (isDir_iff_mem.mp hp)
  · refine Or.inr (List.mem_filter.mpr ⟨self_mem_ancestors hne, ?_⟩)
    simp [hp]

/-- `makedirs` never deletes a directory. -/
theorem makedirs_ok_mono {fs fs' : FS} {p : List String}
    (h : fs.makedirs p = .ok fs') :
    ∀ q, fs.isDir q = true → fs'.isDir q = true := by
  intro q hq
  obtain ⟨hd, -⟩ := makedirs_ok_inv h
  rw [isDir_iff_mem, hd, List.mem_append]
  exact Or.inl (isDir_iff_mem.mp hq)

/-- Inversion for a successful `DataFile.write`. -/
theorem dataFile_write_ok_inv {α : Type} {f : DataFile α} {v : α}
    {fs fs' : FS} {d : List String} (h : f.write v fs d = .ok fs') :
    fs' = fs.write_file (f.path d) (f.writer_ v) := by
  unfold DataFile.write at h
  split at h
  · cases h; rfl
  · exact absurd h (by simp)

/-- `write_file` does not change the directories. -/
theorem write_file_dirs (fs : FS) (p : List String) (v : String) :
    (fs.write_file p v).dirs = fs.dirs := rfl

/-- Inversion for a successful `exists_`. -/
theorem exists_ok_inv {β : Type} {s : DataSeries β} {fs : FS} {locs : List β}
    {b : Bool} (h : s.exists_ fs locs = .ok b) :
    ∃ pth, s.path locs = .ok pth ∧ fs.isDir pth = b := by
  unfold DataSeries.exists_ at h
  split at h
  · exact absurd h (by simp)
  next pth hp =>
    cases h
    exact ⟨pth, hp, rfl⟩

/-- Introduction for `exists_` from a resolved path. -/
theorem exists_of_path_isDir {β : Type} {s : DataSeries β} {fs : FS}
    {locs : List β} {pth : List String} {b : Bool}
    (hp : s.path locs = .ok pth) (hd : fs.isDir pth = b) :
    s.exists_ fs locs = .ok b := by
  unfold DataSeries.exists_
  simp [hp, hd]

/-- Inversion for a successful `createHere`: either the directory already
existed and nothing changed, or the directory was created (and is a
directory afterwards) without deleting any directory. -/
theorem createHere_ok_inv {β : Type} {s : DataSeries β} {fs fs' : FS}
    {locs : List β} (h : DataSeries.createHere s fs locs = .ok fs') :
    (s.exists_ fs locs = .ok true ∧ fs' = fs) ∨
    (∃ pth, s.path locs = .ok pth ∧ fs'.isDir pth = true ∧
      (∀ p, fs.isDir p = true → fs'.isDir p = true)) := by
  unfold DataSeries.createHere at h
  split at h
  · exact absurd h (by simp)
  next hex =>
    cases h
    exact Or.inl ⟨hex, rfl⟩
  next hex =>
    split at h
    · exact absurd h (by simp)
    next pth hp =>
      split at h
      · exact absurd h (by simp)
      next fs1 hmk =>
        have hne := path_ok_ne_nil hp
        split at h
        · -- no loc_dfile: fs' = fs1
          cases h
          exact Or.inr ⟨pth, hp, makedirs_ok_isDir hmk hne, makedirs_ok_mono hmk⟩
        · -- loc_dfile configured
          split at h
          · exact absurd h (by simp)
          · have hw := dataFile_write_ok_inv h
            refine Or.inr ⟨pth, hp, ?_, ?_⟩
            · rw [hw]
              show ((fs1.write_file _ _).dirs.contains pth) = true
              rw [write_file_dirs]
              exact makedirs_ok_isDir hmk hne
            · intro p hp'
              rw [hw]
              show ((fs1.write_file _ _).dirs.contains p) = true
              rw [write_file_dirs]
              exact makedirs_ok_mono hmk p hp'

/-- After a successful `createHere`, the directory exists. -/
theorem createHere_ok_exists {β : Type} {s : DataSeries β} {fs fs' : FS}
    {locs : List β} (h : DataSeries.createHere s fs locs = .ok fs') :
    s.exists_ fs' locs = .ok true := by
  rcases createHere_ok_inv h with ⟨hex, rfl⟩ | ⟨pth, hp, hd, -⟩
  · exact hex
  · exact exists_of_path_isDir hp hd

/-- `createHere` never deletes a directory. -/
theorem createHere_ok_mono {β : Type} {s : DataSeries β} {fs fs' : FS}
    {locs : List β} (h : DataSeries.createHere s fs locs = .ok fs') :
    ∀ p, fs.isDir p = true → fs'.isDir p = true := by
  rcases createHere_ok_inv h with ⟨-, rfl⟩ | ⟨-, -, -, hmono⟩
  · exact fun _ hp => hp
  · exact hmono

/-- After a successful `create`, the directory exists (`model.py`
lines 157–160 guarantee the own directory of the series). -/
theorem create_ok_exists {β : Type} {s : DataSeries β} {fs fs' : FS}
    {locs : List β} (h : s.create fs locs = .ok fs') :
    s.exists_ fs' locs = .ok true := by
  cases s with
  | base c =>
    rw [DataSeries.create] at h
    exact createHere_ok_exists h
  | rooted c r =>
    rw [DataSeries.create] at h
    split at h
    · exact absurd h (by simp)
    · split at h
      · exact absurd h (by simp)
      · exact createHere_ok_exists h

/-- If `create` succeeded once, re-running it on any filesystem that keeps
all the directories of the result is a no-op. -/
theorem create_noop_of_exists {β : Type} (s : DataSeries β) :
    ∀ {fs fs' fs'' : FS} {locs : List β},
    s.create fs locs = .ok fs' →
    (∀ p, fs'.isDir p = true → fs''.isDir p = true) →
    s.create fs'' locs = .ok fs'' := by
  induction s with
  | base c =>
    intro fs fs' fs'' locs h hext
    rw [DataSeries.create] at h ⊢
    obtain ⟨pth, hp, hd⟩ := exists_ok_inv (createHere_ok_exists h)
    unfold DataSeries.createHere
    rw [exists_of_path_isDir hp (hext pth hd)]
  | rooted c r ih =>
    intro fs fs' fs'' locs h hext
    rw [DataSeries.create] at h ⊢
    split at h
    · exact absurd h (by simp)
    next hlt =>
      rw [if_neg hlt]
      split at h
      · exact absurd h (by simp)
      next fs1 hr =>
        have hmono1 := createHere_ok_mono h
        have hr'' : r.create fs'' (locs.take (locs.length - c.nlocs)) = .ok fs'' :=
          ih hr (fun p hp => hext p (hmono1 p hp))
        rw [hr'']
        obtain ⟨pth, hp, hd⟩ := exists_ok_inv (createHere_ok_exists h)
        show DataSeries.createHere (DataSeries.rooted c r) fs'' locs = FsResult.ok fs''
        unfold DataSeries.createHere
        rw [exists_of_path_isDir hp (hext pth hd)]

/-- Claim C3: `create` is idempotent — if `create(locs)` succeeded,
running it again returns the *same* filesystem unchanged (same
directories, the locator file is not rewritten) and raises no error. -/
theorem create_idempotent {β : Type} (s : DataSeries β) (fs fs' : FS)
    (locs : List β) (h : s.create fs locs = .ok fs') :
    s.create fs' locs = .ok fs' :=
  create_noop_of_exists s h (fun _ hp => hp)

/-- Witness for claim C3: creating `[1]` in `exFs` yields `exFs1`, and a
second `create([1])` returns `exFs1` unchanged. -/
theorem create_idempotent_witness :
    exSeries.create exFs1 [1] = .ok exFs1 :=
  create_idempotent exSeries exFs exFs1 [1] (by decide)

/-! ## Claim C1: general helper lemmas -/

/-- `insertPath` is a permutation of consing. -/
theorem insertPath_perm (a : List String) (l : List (List String)) :
    List.Perm (insertPath a l) (a :: l) := by
  induction l with
  | nil => simp [insertPath]
  | cons b bs ih =>
    rw [insertPath]
    by_cases h : pathLeB a b = true
    · simp [h]
    · simp only [h, if_false]
      exact (ih.cons b).trans (List.Perm.swap a b bs)

/-- Sorting the scan results is a permutation. -/
theorem sortPaths_perm (l : List (List String)) :
    List.Perm (sortPaths l) l := by
  induction l with
  | nil => exact List.Perm.refl []
  | cons a as ih => exact (insertPath_perm a (sortPaths as)).trans (ih.cons a)

/-- Sorting does not change membership. -/
theorem mem_sortPaths {l : List (List String)} {p : List String} :
    p ∈ sortPaths l ↔ p ∈ l :=
  (sortPaths_perm l).mem_iff

/-- Deduplication does not change membership. -/
theorem mem_dedupNames {l : List String} {b : String} :
    b ∈ dedupNames l ↔ b ∈ l := by
  induction l with
  | nil => simp [dedupNames]
  | cons a as ih =>
    rw [dedupNames]
    simp only [List.mem_cons, List.mem_filter, ih, Bool.not_eq_true', beq_eq_false_iff_ne]
    constructor
    · rintro (rfl | ⟨hmem, -⟩)
      · exact Or.inl rfl
      · exact Or.inr hmem
    · rintro (rfl | hmem)
      · exact Or.inl rfl
      · by_cases hba : b = a
        · exact Or.inl hba
        · exact Or.inr ⟨hmem, hba⟩

/-- Membership formulation of `FS.isFile`. -/
theorem isFile_iff_mem_keys {fs : FS} {p : List String} :
    fs.isFile p = true ↔ p ∈ fs.files.map Prod.fst := by
  unfold FS.isFile
  induction fs.files with
  | nil => simp
  | cons e es ih =>
    rw [List.lookup]
    by_cases h : p = e.1
    · simp [h]
    · have hbeq : (p == e.1) = false := by simp [h]
      simp [hbeq, ih, h]

/-- A one-segment extension characterization. -/
theorem extend_one_iff {p q : List String} :
    (p <+: q ∧ q.length = p.length + 1) ↔ ∃ nm, q = p ++ [nm] := by
  constructor
  · rintro ⟨⟨t, rfl⟩, hlen⟩
    have ht : t.length = 1 := by
      rw [List.length_append] at hlen
      omega
    obtain ⟨nm, rfl⟩ := List.length_eq_one.mp ht
    exact ⟨nm, rfl⟩
  · rintro ⟨nm, rfl⟩
    exact ⟨⟨[nm], rfl⟩, by simp⟩

/-- Ancestors are exactly the nonempty prefixes. -/
theorem mem_ancestors_iff {p q : List String} :
    q ∈ ancestors p ↔ (q ≠ [] ∧ q <+: p) := by
  unfold ancestors
  simp only [List.mem_map, List.mem_range]
  constructor
  · rintro ⟨i, hi, rfl⟩
    refine ⟨?_, List.take_prefix _ _⟩
    have : (p.take (i + 1)).length = i + 1 := by
      rw [List.length_take]; omega
    intro hnil
    rw [hnil] at this
    simp at this
  · rintro ⟨hne, hpre⟩
    have hle : q.length ≤ p.length := hpre.length_le
    have hpos : 0 < q.length := List.length_pos.mpr hne
    refine ⟨q.length - 1, by omega, ?_⟩
    rw [Nat.sub_add_cancel hpos]
    exact (List.prefix_iff_eq_take.mp hpre).symm

/-- Split a prefix of an appended list at the boundary. -/
theorem prefix_append_cases {p a b : List String} (h : p <+: a ++ b) :
    p <+: a ∨ ∃ t, t <+: b ∧ t ≠ [] ∧ p = a ++ t := by
  rcases le_or_lt p.length a.length with hle | hlt
  · exact Or.inl (List.prefix_of_prefix_length_le h (List.prefix_append a b) hle)
  · right
    have ha : a <+: p :=
      List.prefix_of_prefix_length_le (List.prefix_append a b) h (by omega)
    obtain ⟨t, rfl⟩ := ha
    obtain ⟨u, hu⟩ := h
    rw [List.append_assoc] at hu
    refine ⟨t, ⟨u, List.append_cancel_left hu⟩, ?_, rfl⟩
    intro hnil
    rw [hnil] at hlt
    simp at hlt

/-- Prefixes transfer along appending on the left. -/
theorem append_prefix_append {a t u : List String} (h : t <+: u) :
    a ++ t <+: a ++ u := by
  obtain ⟨r, rfl⟩ := h
  exact ⟨r, by simp⟩

/-- The entry names under an existing directory are exactly the one-segment
extensions present in the filesystem. -/
theorem mem_entryNames {fs : FS} {p : List String} {nm : String}
    (hdir : fs.isDir p = true) :
    nm ∈ fs.entryNames p ↔
      (fs.isDir (p ++ [nm]) = true ∨ fs.isFile (p ++ [nm]) = true) := by
  unfold FS.entryNames
  rw [if_pos hdir, mem_dedupNames, List.mem_filterMap]
  constructor
  · rintro ⟨q, hq, hf⟩
    split at hf
    next hcond =>
      rw [Bool.and_eq_true, beq_iff_eq] at hcond
      obtain ⟨nm2, rfl⟩ := extend_one_iff.mp
        ⟨List.isPrefixOf_iff_prefix.mp hcond.2, hcond.1⟩
      rw [List.getLast?_concat] at hf
      cases hf
      rcases List.mem_append.mp hq with hd | hfk
      · exact Or.inl (isDir_iff_mem.mpr hd)
      · exact Or.inr (isFile_iff_mem_keys.mpr hfk)
    · exact absurd hf (by simp)
  · intro h
    refine ⟨p ++ [nm], ?_, ?_⟩
    · rcases h with hd | hf
      · exact List.mem_append.mpr (Or.inl (isDir_iff_mem.mp hd))
      · exact List.mem_append.mpr (Or.inr (isFile_iff_mem_keys.mp hf))
    · have hcond : ((p ++ [nm]).length == p.length + 1 &&
          p.isPrefixOf (p ++ [nm])) = true := by
        rw [Bool.and_eq_true, beq_iff_eq]
        exact ⟨by simp, List.isPrefixOf_iff_prefix.mpr ⟨[nm], rfl⟩⟩
      rw [if_pos hcond, List.getLast?_concat]

/-! ## Claim C1: setup -/

/-- The relative segment list the series' map produces for a locator
tuple. -/
def segsOf {β : Type} (c : DSCore β) (l : List β) : List String :=
  _os_path_split_all (c.map_ l)

/-- The directory a locator tuple resolves to under a rootless series. -/
def dirOf {β : Type} (c : DSCore β) (l : List β) : List String :=
  c.pfx ++ segsOf c l

/-- The locator file inside the directory of a locator tuple. -/
def locFileOf {β : Type} (c : DSCore β) (df : DataFile (List β))
    (l : List β) : List String :=
  dirOf c l ++ [df.name]

/-- The standing hypotheses of the enumeration property: the prefix is a
real directory chain in `fs0`, nothing on disk lies under or across the
prefix, and the map/codec behave on the locator tuples of interest (valid
dot-free segment output of the configured depth, injective, round-tripping
codec). -/
structure C1Hyps {β : Type} (c : DSCore β) (df : DataFile (List β))
    (fs0 : FS) (L : List (List β)) : Prop where
  pfx_ne : c.pfx ≠ []
  pfx_dirs : ∀ q ∈ ancestors c.pfx, fs0.isDir q = true
  fs0_dirs : ∀ p ∈ fs0.dirs, ¬(c.pfx <+: p ∧ p ≠ c.pfx)
  fs0_files : ∀ e ∈ fs0.files, ¬c.pfx <+: e.1 ∧ ¬e.1 <+: c.pfx
  len : ∀ l ∈ L, l.length = c.nlocs
  dep : ∀ l ∈ L, (segsOf c l).length = c.depth
  seg : ∀ l ∈ L, ∀ s_ ∈ segsOf c l, s_ ≠ "" ∧ hiddenName s_ = false
  inj : ∀ l1 ∈ L, ∀ l2 ∈ L, segsOf c l1 = segsOf c l2 → l1 = l2
  codec : ∀ l ∈ L, df.reader_ (df.writer_ l) = l

/-- The filesystem invariant maintained while creating the tuples of
`done`: the directories are those of `fs0` plus every nonempty prefix of a
created tuple's segment chain; the files are those of `fs0` plus one
locator file per created tuple; each locator file holds the encoded
self-locator tuple. -/
structure C1Inv {β : Type} (c : DSCore β) (df : DataFile (List β))
    (fs0 : FS) (done : List (List β)) (fs : FS) : Prop where
  isDir_iff : ∀ p, fs.isDir p = true ↔
    (fs0.isDir p = true ∨
      ∃ l ∈ done, ∃ t, t ≠ [] ∧ t <+: segsOf c l ∧ p = c.pfx ++ t)
  isFile_iff : ∀ p, fs.isFile p = true ↔
    (fs0.isFile p = true ∨ ∃ l ∈ done, p = locFileOf c df l)
  content : ∀ l ∈ done, fs.files.lookup (locFileOf c df l) = some (df.writer_ l)

/-- A name that is not hidden is neither `.` nor `..`. -/
theorem ne_dots_of_not_hidden {s : String} (h : hiddenName s = false) :
    s ≠ "." ∧ s ≠ ".." := by
  constructor
  · rintro rfl
    exact absurd h (by decide)
  · rintro rfl
    exact absurd h (by decide)

/-- Valid segments pass the `_path_is_relative` assertion. -/
theorem relative_of_segs {β : Type} {c : DSCore β} {l : List β}
    (h : ∀ s_ ∈ segsOf c l, s_ ≠ "" ∧ hiddenName s_ = false) :
    _path_is_relative (c.map_ l) = true := by
  unfold _path_is_relative
  rw [List.all_eq_true]
  intro s_ hs
  have hs' := h s_ (by simpa [segsOf, _os_path_split_all] using hs)
  obtain ⟨hd1, hd2⟩ := ne_dots_of_not_hidden hs'.2
  simp [hs'.1, hd1, hd2]

/-- The configured depth passes the `_path_has_depth` assertion. -/
theorem depth_of_segs {β : Type} {c : DSCore β} {l : List β}
    (h : (segsOf c l).length = c.depth) :
    _path_has_depth (c.map_ l) c.depth = true := by
  unfold _path_has_depth
  rw [beq_iff_eq]
  simpa [segsOf] using h

/-- A rootless `path` on a valid tuple succeeds with the joined path. -/
theorem path_base_ok {β : Type} {c : DSCore β} {locs : List β}
    (hlen : locs.length = c.nlocs)
    (hrel : _path_is_relative (c.map_ locs) = true)
    (hdep : _path_has_depth (c.map_ locs) c.depth = true) :
    (DataSeries.base c).path locs = .ok (c.pfx ++ _os_path_split_all (c.map_ locs)) := by
  rw [DataSeries.path]
  unfold DataSeries.pathTail
  simp [hlen, hrel, hdep]

/-- The map's segment list is never empty. -/
theorem segsOf_ne_nil {β : Type} (c : DSCore β) (l : List β) :
    segsOf c l ≠ [] := by
  simp [segsOf, _os_path_split_all, splitSlash_ne_nil]

/-! ## Claim C1: consequences of the hypotheses and the invariant -/

/-- `fs0` has no directory strictly under the prefix. -/
theorem c1_fs0_no_dir_under {β : Type} {c : DSCore β} {df : DataFile (List β)}
    {fs0 : FS} {L : List (List β)} (H : C1Hyps c df fs0 L)
    {p : List String} (hp : c.pfx <+: p) (hne : p ≠ c.pfx) :
    fs0.isDir p = false := by
  rw [Bool.eq_false_iff]
  intro hd
  exact H.fs0_dirs p (isDir_iff_mem.mp hd) ⟨hp, hne⟩

/-- `fs0` has no file at or under the prefix, nor along its ancestors. -/
theorem c1_fs0_no_file {β : Type} {c : DSCore β} {df : DataFile (List β)}
    {fs0 : FS} {L : List (List β)} (H : C1Hyps c df fs0 L)
    {p : List String} (hp : c.pfx <+: p ∨ p <+: c.pfx) :
    fs0.isFile p = false := by
  rw [Bool.eq_false_iff]
  intro hf
  obtain ⟨e, he, rfl⟩ := List.mem_map.mp (isFile_iff_mem_keys.mp hf)
  rcases hp with h | h
  · exact (H.fs0_files e he).1 h
  · exact (H.fs0_files e he).2 h

/-- The prefix itself is a directory in every invariant state. -/
theorem c1_inv_pfx_isDir {β : Type} {c : DSCore β} {df : DataFile (List β)}
    {fs0 : FS} {L : List (List β)} {done : List (List β)} {fs : FS}
    (H : C1Hyps c df fs0 L) (inv : C1Inv c df fs0 done fs) :
    fs.isDir c.pfx = true := by
  rw [inv.isDir_iff]
  exact Or.inl (H.pfx_dirs c.pfx (self_mem_ancestors H.pfx_ne))

/-- Directories strictly under the prefix are exactly the nonempty prefixes
of created segment chains. -/
theorem c1_inv_isDir_ext {β : Type} {c : DSCore β} {df : DataFile (List β)}
    {fs0 : FS} {L : List (List β)} {done : List (List β)} {fs : FS}
    (H : C1Hyps c df fs0 L) (inv : C1Inv c df fs0 done fs)
    {t : List String} (ht : t ≠ []) :
    fs.isDir (c.pfx ++ t) = true ↔ ∃ l ∈ done, t <+: segsOf c l := by
  rw [inv.isDir_iff]
  constructor
  · rintro (h0 | ⟨l, hl, t', hne', hpre', heq'⟩)
    · have : c.pfx ++ t ≠ c.pfx := by
        intro h
        have := List.append_cancel_left (h.trans (List.append_nil c.pfx).symm)
        exact ht this
      rw [c1_fs0_no_dir_under H ⟨t, rfl⟩ this] at h0
      cases h0
    · have : t = t' := List.append_cancel_left heq'
      exact ⟨l, hl, this ▸ hpre'⟩
  · rintro ⟨l, hl, hpre⟩
    exact Or.inr ⟨l, hl, t, ht, hpre, rfl⟩

/-- Files at or under the prefix are exactly the created locator files. -/
theorem c1_inv_isFile_ext {β : Type} {c : DSCore β} {df : DataFile (List β)}
    {fs0 : FS} {L : List (List β)} {done : List (List β)} {fs : FS}
    (H : C1Hyps c df fs0 L) (inv : C1Inv c df fs0 done fs)
    {t : List String} :
    fs.isFile (c.pfx ++ t) = true ↔
      ∃ l ∈ done, c.pfx ++ t = locFileOf c df l := by
  rw [inv.isFile_iff]
  rw [c1_fs0_no_file H (Or.inl ⟨t, rfl⟩)]
  simp

/-- The invariant holds initially, before any creation. -/
theorem c1_inv_init {β : Type} {c : DSCore β} {df : DataFile (List β)}
    {fs0 : FS} {L : List (List β)} (_H : C1Hyps c df fs0 L) :
    C1Inv c df fs0 [] fs0 := by
  refine ⟨fun p => ?_, fun p => ?_, fun l hl => ?_⟩
  · simp
  · simp
  · cases hl

/-- `lookup` on a consed association list. -/
theorem lookup_cons_isSome {k p : List String} {v : String}
    {es : List (List String × String)} :
    (((k, v) :: es).lookup p).isSome = true ↔
      (p = k ∨ (es.lookup p).isSome = true) := by
  rw [List.lookup]
  by_cases h : p = k
  · simp [h]
  · have hbeq : (p == k) = false := by simp [h]
    simp [hbeq, h]

/-- `lookup` skips a consed entry with a different key. -/
theorem lookup_cons_ne {k p : List String} {v : String}
    {es : List (List String × String)} (h : p ≠ k) :
    (((k, v) :: es).lookup p) = es.lookup p := by
  rw [List.lookup]
  have hbeq : (p == k) = false := by simp [h]
  rw [hbeq]

/-- One `create` step: creating a fresh valid tuple succeeds and extends
the invariant. -/
theorem c1_create_step {β : Type} {c : DSCore β} {df : DataFile (List β)}
    {fs0 : FS} {L : List (List β)} {done : List (List β)} {fs : FS}
    {l' : List β}
    (H : C1Hyps c df fs0 L) (hdf : c.loc_dfile = some df)
    (inv : C1Inv c df fs0 done fs) (hsub : ∀ l ∈ done, l ∈ L)
    (hl' : l' ∈ L) (hnew : l' ∉ done) :
    ∃ fs', (DataSeries.base c).create fs l' = .ok fs' ∧
      C1Inv c df fs0 (l' :: done) fs' := by
  have hpath : (DataSeries.base c).path l' = .ok (dirOf c l') :=
    path_base_ok (H.len l' hl') (relative_of_segs (H.seg l' hl'))
      (depth_of_segs (H.dep l' hl'))
  -- the target directory does not exist yet
  have hNotDir : fs.isDir (dirOf c l') = false := by
    rw [Bool.eq_false_iff]
    intro hd
    obtain ⟨l, hl, hpre⟩ :=
      (c1_inv_isDir_ext H inv (segsOf_ne_nil c l')).mp hd
    have hlen_eq : (segsOf c l').length = (segsOf c l).length := by
      rw [H.dep l' hl', H.dep l (hsub l hl)]
    have heq := hpre.eq_of_length hlen_eq
    have := H.inj l' hl' l (hsub l hl) heq
    exact hnew (this ▸ hl)
  have hNotFile : fs.isFile (dirOf c l') = false := by
    rw [Bool.eq_false_iff]
    intro hf
    obtain ⟨l, hl, heq⟩ := (c1_inv_isFile_ext H inv (t := segsOf c l')).mp hf
    have hseq : segsOf c l' = segsOf c l ++ [df.name] := by
      apply @List.append_cancel_left String c.pfx
      simpa [locFileOf, dirOf, List.append_assoc] using heq
    have := congrArg List.length hseq
    rw [H.dep l' hl', List.length_append, H.dep l (hsub l hl)] at this
    simp at this
  have hexists : (DataSeries.base c).exists_ fs l' = .ok false :=
    exists_of_path_isDir hpath hNotDir
  have hpe : fs.pathExists (dirOf c l') = false := by
    simp [FS.pathExists, hNotDir, hNotFile]
  -- no ancestor of the target is a regular file
  have hancf : ((ancestors (dirOf c l')).any fs.isFile) = false := by
    rw [Bool.eq_false_iff]
    intro hany
    obtain ⟨q, hq, hf⟩ := List.any_eq_true.mp hany
    obtain ⟨hqne, hqpre⟩ := mem_ancestors_iff.mp hq
    rcases prefix_append_cases hqpre with hq1 | ⟨t, htpre, htne, rfl⟩
    · rw [inv.isFile_iff] at hf
      rcases hf with h0 | ⟨l, hl, rfl⟩
      · rw [c1_fs0_no_file H (Or.inr hq1)] at h0
        cases h0
      · have := hq1.length_le
        simp [locFileOf, dirOf, List.length_append] at this
    · rw [c1_inv_isFile_ext H inv] at hf
      obtain ⟨l, hl, heq⟩ := hf
      have hteq : t = segsOf c l ++ [df.name] := by
        apply @List.append_cancel_left String c.pfx
        simpa [locFileOf, dirOf, List.append_assoc] using heq
      have h1 := htpre.length_le
      rw [H.dep l' hl'] at h1
      have h2 := congrArg List.length hteq
      rw [List.length_append, H.dep l (hsub l hl)] at h2
      simp at h2
      omega
  have hmk : fs.makedirs (dirOf c l') =
      .ok ⟨fs.dirs ++ (ancestors (dirOf c l')).filter (fun q => !fs.isDir q),
           fs.files⟩ := by
    unfold FS.makedirs
    rw [hpe, hancf]
    simp
  have hlt : ¬ l'.length < c.nlocs := by
    rw [H.len l' hl']
    omega
  have hdrop : l'.length - c.nlocs = 0 := by
    rw [H.len l' hl']
    omega
  have hdirne : dirOf c l' ≠ [] := by
    simp [dirOf, H.pfx_ne]
  have hpe1 : FS.pathExists
      ⟨fs.dirs ++ (ancestors (dirOf c l')).filter (fun q => !fs.isDir q), fs.files⟩
      (dirOf c l') = true := by
    have := makedirs_ok_isDir hmk hdirne
    simp [FS.pathExists, this]
  have hcreate : (DataSeries.base c).create fs l' =
      .ok (FS.write_file
        ⟨fs.dirs ++ (ancestors (dirOf c l')).filter (fun q => !fs.isDir q), fs.files⟩
        (locFileOf c df l') (df.writer_ l')) := by
    simp only [DataSeries.create, DataSeries.createHere, DataSeries.core, hexists,
      hpath, hmk, hdf, if_neg hlt, hdrop, List.drop_zero, DataFile.write, hpe1,
      if_true]
    rfl
  refine ⟨_, hcreate, ?_, ?_, ?_⟩
  · -- directories
    intro p
    have hstep : (FS.write_file
        ⟨fs.dirs ++ (ancestors (dirOf c l')).filter (fun q => !fs.isDir q), fs.files⟩
        (locFileOf c df l') (df.writer_ l')).isDir p = true ↔
        (fs.isDir p = true ∨ p ∈ ancestors (dirOf c l')) := by
      rw [isDir_iff_mem]
      show p ∈ fs.dirs ++ (ancestors (dirOf c l')).filter (fun q => !fs.isDir q) ↔ _
      rw [List.mem_append, List.mem_filter]
      constructor
      · rintro (h | ⟨h, -⟩)
        · exact Or.inl (isDir_iff_mem.mpr h)
        · exact Or.inr h
      · rintro (h | h)
        · exact Or.inl (isDir_iff_mem.mp h)
        · by_cases hd : fs.isDir p = true
          · exact Or.inl (isDir_iff_mem.mp hd)
          · refine Or.inr ⟨h, ?_⟩
            simp [hd]
    rw [hstep]
    constructor
    · rintro (h | h)
      · rcases (inv.isDir_iff p).mp h with h0 | ⟨l, hl, t, htne, htp, rfl⟩
        · exact Or.inl h0
        · exact Or.inr ⟨l, List.mem_cons_of_mem _ hl, t, htne, htp, rfl⟩
      · obtain ⟨hpne2, hp⟩ := mem_ancestors_iff.mp h
        rcases prefix_append_cases (a := c.pfx) (b := segsOf c l') hp with
          h1 | ⟨t, htpre, htne, rfl⟩
        · exact Or.inl (H.pfx_dirs p (mem_ancestors_iff.mpr ⟨hpne2, h1⟩))
        · exact Or.inr ⟨l', List.mem_cons_self _ _, t, htne, htpre, rfl⟩
    · rintro (h0 | ⟨l, hl, t, htne, htp, rfl⟩)
      · exact Or.inl ((inv.isDir_iff p).mpr (Or.inl h0))
      · rcases List.mem_cons.mp hl with rfl | hl
        · refine Or.inr (mem_ancestors_iff.mpr ⟨?_, append_prefix_append htp⟩)
          simp [H.pfx_ne]
        · exact Or.inl ((inv.isDir_iff _).mpr (Or.inr ⟨l, hl, t, htne, htp, rfl⟩))
  · intro p
    have hstep : (FS.write_file
        ⟨fs.dirs ++ (ancestors (dirOf c l')).filter (fun q => !fs.isDir q), fs.files⟩
        (locFileOf c df l') (df.writer_ l')).isFile p = true ↔
        (p = locFileOf c df l' ∨ fs.isFile p = true) := by
      show ((((locFileOf c df l', df.writer_ l') :: fs.files).lookup p).isSome) = true ↔ _
      exact lookup_cons_isSome
    rw [hstep]
    constructor
    · rintro (rfl | h)
      · exact Or.inr ⟨l', List.mem_cons_self _ _, rfl⟩
      · rcases (inv.isFile_iff p).mp h with h0 | ⟨l, hl, rfl⟩
        · exact Or.inl h0
        · exact Or.inr ⟨l, List.mem_cons_of_mem _ hl, rfl⟩
    · rintro (h0 | ⟨l, hl, rfl⟩)
      · exact Or.inr ((inv.isFile_iff p).mpr (Or.inl h0))
      · rcases List.mem_cons.mp hl with rfl | hl
        · exact Or.inl rfl
        · exact Or.inr ((inv.isFile_iff _).mpr (Or.inr ⟨l, hl, rfl⟩))
  · intro l hl
    rcases List.mem_cons.mp hl with rfl | hl
    · show (((locFileOf c df l, df.writer_ l) :: fs.files).lookup (locFileOf c df l)) =
        some (df.writer_ l)
      simp [List.lookup]
    · have hkeyne : locFileOf c df l ≠ locFileOf c df l' := by
        intro h
        have h2 : segsOf c l = segsOf c l' := by
          have h3 : (c.pfx ++ segsOf c l) ++ [df.name] =
              (c.pfx ++ segsOf c l') ++ [df.name] := h
          simpa [List.append_assoc] using h3
        have := H.inj l (hsub l hl) l' hl' h2
        exact hnew (this ▸ hl)
      show (((locFileOf c df l', df.writer_ l') :: fs.files).lookup (locFileOf c df l)) =
        some (df.writer_ l)
      rw [lookup_cons_ne hkeyne]
      exact inv.content l hl

/-- Reading a list of locator files succeeds when each read succeeds, and
the results are exactly the values read. -/
theorem readLocs_ok {β : Type} (df : DataFile (List β)) (fs : FS) :
    ∀ (ps : List (List String)),
    (∀ p ∈ ps, ∃ v, df.read fs p = .ok v) →
    ∃ vs, DataSeries.readLocs df fs ps = .ok vs ∧
      (∀ v, v ∈ vs ↔ ∃ p ∈ ps, df.read fs p = .ok v) := by
  intro ps
  induction ps with
  | nil => intro _; exact ⟨[], rfl, by simp⟩
  | cons p ps ih =>
    intro h
    obtain ⟨v, hv⟩ := h p (List.mem_cons_self _ _)
    obtain ⟨vs, hvs, hmem⟩ := ih (fun q hq => h q (List.mem_cons_of_mem _ hq))
    refine ⟨v :: vs, ?_, ?_⟩
    · simp only [DataSeries.readLocs, hv, hvs]
    · intro w
      simp only [List.mem_cons, hmem]
      constructor
      · rintro (rfl | ⟨q, hq, hr⟩)
        · exact ⟨p, Or.inl rfl, hv⟩
        · exact ⟨q, Or.inr hq, hr⟩
      · rintro ⟨q, hq, hr⟩
        rcases hq with rfl | hq
        · rw [hv] at hr
          injection hr with h2
          exact Or.inl h2.symm
        · exact Or.inr ⟨q, hq, hr⟩

/-- Folding `create` over a list of fresh valid tuples succeeds and
establishes the invariant for all of them. -/
theorem c1_createAll_inv {β : Type} {c : DSCore β} {df : DataFile (List β)}
    {fs0 : FS} {L : List (List β)}
    (H : C1Hyps c df fs0 L) (hdf : c.loc_dfile = some df) :
    ∀ (rest done : List (List β)) (fs : FS),
    C1Inv c df fs0 done fs → (∀ l ∈ done, l ∈ L) →
    (∀ l ∈ rest, l ∈ L) → rest.Nodup → (∀ l ∈ rest, l ∉ done) →
    ∃ fs', createAll (DataSeries.base c) fs rest = .ok fs' ∧
      C1Inv c df fs0 (rest.reverse ++ done) fs' := by
  intro rest
  induction rest with
  | nil =>
    intro done fs inv hsub _ _ _
    exact ⟨fs, rfl, by simpa using inv⟩
  | cons l' rest ih =>
    intro done fs inv hsub hrest hnd hdisj
    obtain ⟨fs1, hc, inv1⟩ := c1_create_step H hdf inv hsub
      (hrest l' (List.mem_cons_self _ _)) (hdisj l' (List.mem_cons_self _ _))
    obtain ⟨fs', hca, inv'⟩ := ih (l' :: done) fs1 inv1
      (fun l hl => by
        rcases List.mem_cons.mp hl with rfl | hl
        · exact hrest l (List.mem_cons_self _ _)
        · exact hsub l hl)
      (fun l hl => hrest l (List.mem_cons_of_mem _ hl))
      (List.Nodup.of_cons hnd)
      (fun l hl hmem => by
        rcases List.mem_cons.mp hmem with heq | hmem2
        · exact (List.nodup_cons.mp hnd).1 (heq ▸ hl)
        · exact hdisj l (List.mem_cons_of_mem _ hl) hmem2)
    refine ⟨fs', ?_, ?_⟩
    · simp only [createAll, hc]
      exact hca
    · have heq : (l' :: rest).reverse ++ done = rest.reverse ++ (l' :: done) := by
        simp [List.reverse_cons, List.append_assoc]
      rw [heq]
      exact inv'

/-- The glob scan under the prefix finds exactly the created directories
(characterized level by level: `k` wildcard segments remain below the
already-fixed partial chain `t`). -/
theorem c1_glob_aux {β : Type} {c : DSCore β} {df : DataFile (List β)}
    {fs0 : FS} {L : List (List β)} {done : List (List β)} {fs : FS}
    (H : C1Hyps c df fs0 L) (inv : C1Inv c df fs0 done fs)
    (hsub : ∀ l ∈ done, l ∈ L) (hdpos : 1 ≤ c.depth) :
    ∀ (k : Nat) (t : List String), t.length + k = c.depth →
    (t = [] ∨ ∃ l ∈ done, t ≠ [] ∧ t <+: segsOf c l) →
    ∀ p, p ∈ fs.glob (c.pfx ++ t) k ↔
      ∃ l ∈ done, t <+: segsOf c l ∧ p = dirOf c l := by
  intro k
  induction k with
  | zero =>
    intro t hlen hpre p
    rcases hpre with rfl | ⟨l0, hl0, htne, htpre⟩
    · simp at hlen
      omega
    · have hteq : t.length = (segsOf c l0).length := by
        rw [H.dep l0 (hsub l0 hl0)]
        omega
      have ht : t = segsOf c l0 := htpre.eq_of_length hteq
      have hdir : fs.isDir (c.pfx ++ t) = true :=
        (c1_inv_isDir_ext H inv htne).mpr ⟨l0, hl0, htpre⟩
      have hpe : fs.pathExists (c.pfx ++ t) = true := by
        simp [FS.pathExists, hdir]
      rw [FS.glob, hpe]
      simp only [if_true, List.mem_singleton]
      constructor
      · rintro rfl
        exact ⟨l0, hl0, htpre, by rw [dirOf, ← ht]⟩
      · rintro ⟨l, hl, hpre2, rfl⟩
        have : t = segsOf c l := hpre2.eq_of_length
          (by rw [H.dep l (hsub l hl)]; omega)
        rw [dirOf, ← this]
  | succ k ih =>
    intro t hlen hpre p
    have hdir : fs.isDir (c.pfx ++ t) = true := by
      rcases hpre with rfl | ⟨l0, hl0, htne, htpre⟩
      · simpa using c1_inv_pfx_isDir H inv
      · exact (c1_inv_isDir_ext H inv htne).mpr ⟨l0, hl0, htpre⟩
    rw [FS.glob, List.mem_flatMap]
    constructor
    · rintro ⟨nm, hnm, hp⟩
      rw [List.mem_filter] at hnm
      obtain ⟨hnmE, hnmHid⟩ := hnm
      rw [mem_entryNames hdir] at hnmE
      have hext : ∃ l ∈ done, (t ++ [nm]) <+: segsOf c l := by
        rcases hnmE with hd | hf
        · rw [show (c.pfx ++ t) ++ [nm] = c.pfx ++ (t ++ [nm]) by
            simp [List.append_assoc]] at hd
          exact (c1_inv_isDir_ext H inv (by simp)).mp hd
        · rw [show (c.pfx ++ t) ++ [nm] = c.pfx ++ (t ++ [nm]) by
            simp [List.append_assoc]] at hf
          obtain ⟨l, hl, heq⟩ := (c1_inv_isFile_ext H inv).mp hf
          have hteq : t ++ [nm] = segsOf c l ++ [df.name] := by
            apply @List.append_cancel_left String c.pfx
            simpa [locFileOf, dirOf, List.append_assoc] using heq
          have := congrArg List.length hteq
          rw [List.length_append, List.length_append,
            H.dep l (hsub l hl)] at this
          simp at this
          omega
      obtain ⟨l1, hl1, hpre1⟩ := hext
      have hIH := ih (t ++ [nm])
        (by rw [List.length_append]; simp; omega)
        (Or.inr ⟨l1, hl1, by simp, hpre1⟩)
      rw [show (c.pfx ++ t) ++ [nm] = c.pfx ++ (t ++ [nm]) by
        simp [List.append_assoc]] at hp
      obtain ⟨l, hl, hpre2, rfl⟩ := (hIH p).mp hp
      exact ⟨l, hl, (List.prefix_append t [nm]).trans hpre2, rfl⟩
    · rintro ⟨l, hl, hpre2, rfl⟩
      have hlt : t.length < (segsOf c l).length := by
        rw [H.dep l (hsub l hl)]
        omega
      have htake : t ++ [(segsOf c l).get ⟨t.length, hlt⟩] =
          (segsOf c l).take (t.length + 1) := by
        have ht : t = (segsOf c l).take t.length :=
          List.prefix_iff_eq_take.mp hpre2
        rw [List.take_succ, List.getElem?_eq_getElem hlt]
        simp [← ht, List.get_eq_getElem]
      have hpre3 : t ++ [(segsOf c l).get ⟨t.length, hlt⟩] <+: segsOf c l := by
        rw [htake]
        exact List.take_prefix _ _
      refine ⟨(segsOf c l).get ⟨t.length, hlt⟩, ?_, ?_⟩
      · rw [List.mem_filter]
        refine ⟨?_, ?_⟩
        · rw [mem_entryNames hdir]
          left
          rw [show (c.pfx ++ t) ++ [(segsOf c l).get ⟨t.length, hlt⟩] =
              c.pfx ++ (t ++ [(segsOf c l).get ⟨t.length, hlt⟩]) by
            simp [List.append_assoc]]
          exact (c1_inv_isDir_ext H inv (by simp)).mpr ⟨l, hl, hpre3⟩
        · have hmem : (segsOf c l).get ⟨t.length, hlt⟩ ∈ segsOf c l := by
            rw [List.get_eq_getElem]
            exact List.getElem_mem hlt
          have h5 := (H.seg l (hsub l hl) _ hmem).2
          simp only [List.get_eq_getElem] at h5
          simp [h5]
      · rw [show (c.pfx ++ t) ++ [(segsOf c l).get ⟨t.length, hlt⟩] =
            c.pfx ++ (t ++ [(segsOf c l).get ⟨t.length, hlt⟩]) by
          simp [List.append_assoc]]
        refine ((ih (t ++ [(segsOf c l).get ⟨t.length, hlt⟩])
          (by rw [List.length_append]; simp; omega)
          (Or.inr ⟨l, hl, by simp, hpre3⟩)) (dirOf c l)).mpr ⟨l, hl, hpre3, rfl⟩

/-- The enumeration scan at an invariant state returns exactly the created
locator tuples (in some order). -/
theorem c1_scan {β : Type} {c : DSCore β} {df : DataFile (List β)}
    {fs0 : FS} {L done : List (List β)} {fs : FS}
    (H : C1Hyps c df fs0 L) (hdf : c.loc_dfile = some df) (hn : 0 < c.nlocs)
    (inv : C1Inv c df fs0 done fs) (hsub : ∀ l ∈ done, l ∈ L) (fuel : Nat) :
    ∃ res, (DataSeries.base c).existing fs (fuel + 1) [] false = .ok res ∧
      (∀ v, v ∈ res ↔ v ∈ done) := by
  have hread : ∀ l ∈ done, df.read fs (dirOf c l) = .ok l := by
    intro l hl
    have hfile : fs.isFile (dirOf c l ++ [df.name]) = true :=
      (inv.isFile_iff _).mpr (Or.inr ⟨l, hl, rfl⟩)
    have hcontent : fs.files.lookup (dirOf c l ++ [df.name]) =
        some (df.writer_ l) := inv.content l hl
    simp [DataFile.read, DataFile.exists_, DataFile.path, FS.read_file, hfile,
      hcontent, H.codec l (hsub l hl)]
  have hfmem : ∀ p,
      p ∈ (sortPaths ((fs.glob c.pfx c.depth).filter fs.isDir)).filter
        (fun q => df.exists_ fs q) ↔ ∃ l ∈ done, p = dirOf c l := by
    intro p
    rw [List.mem_filter, mem_sortPaths, List.mem_filter]
    by_cases hd0 : c.depth = 0
    · have hdone : done = [] := by
        cases done with
        | nil => rfl
        | cons l ls =>
          exfalso
          have hz := H.dep l (hsub l (List.mem_cons_self _ _))
          rw [hd0] at hz
          exact segsOf_ne_nil c l (List.length_eq_zero.mp hz)
      subst hdone
      constructor
      · rintro ⟨⟨hpg, -⟩, hpe⟩
        rw [hd0, FS.glob] at hpg
        by_cases hex : fs.pathExists c.pfx = true
        · rw [if_pos hex] at hpg
          rw [List.mem_singleton] at hpg
          subst hpg
          have hpe2 : fs.isFile (c.pfx ++ [df.name]) = true := hpe
          obtain ⟨l, hl, -⟩ := (c1_inv_isFile_ext H inv (t := [df.name])).mp hpe2
          exact absurd hl (List.not_mem_nil l)
        · rw [if_neg hex] at hpg
          exact absurd hpg (List.not_mem_nil p)
      · rintro ⟨l, hl, -⟩
        exact absurd hl (List.not_mem_nil l)
    · have hdpos : 1 ≤ c.depth := by omega
      have hglob := c1_glob_aux H inv hsub hdpos c.depth [] (by simp) (Or.inl rfl)
      simp only [List.append_nil] at hglob
      constructor
      · rintro ⟨⟨hpg, -⟩, -⟩
        obtain ⟨l, hl, -, rfl⟩ := (hglob p).mp hpg
        exact ⟨l, hl, rfl⟩
      · rintro ⟨l, hl, rfl⟩
        have hmemg : dirOf c l ∈ fs.glob c.pfx c.depth :=
          (hglob _).mpr ⟨l, hl, List.nil_prefix, rfl⟩
        have hdirl : fs.isDir (dirOf c l) = true :=
          (c1_inv_isDir_ext H inv (segsOf_ne_nil c l)).mpr
            ⟨l, hl, List.prefix_refl _⟩
        refine ⟨⟨hmemg, hdirl⟩, ?_⟩
        show df.exists_ fs (dirOf c l) = true
        exact (inv.isFile_iff _).mpr (Or.inr ⟨l, hl, rfl⟩)
  obtain ⟨vs, hvs, hvmem⟩ := readLocs_ok df fs
    ((sortPaths ((fs.glob c.pfx c.depth).filter fs.isDir)).filter
      (fun q => df.exists_ fs q))
    (fun p hp => by
      obtain ⟨l, hl, rfl⟩ := (hfmem p).mp hp
      exact ⟨l, hread l hl⟩)
  have hep : (DataSeries.base c)._existing_paths fs [] =
      .ok (sortPaths ((fs.glob c.pfx c.depth).filter fs.isDir)) := by
    simp [DataSeries._existing_paths, DataSeries.root, DataSeries.core]
  have hn0 : ¬ (c.nlocs = 0) := by omega
  refine ⟨vs, ?_, ?_⟩
  · simp only [DataSeries.existing, DataSeries.core, hn0, if_false, hdf,
      DataSeries.root_locator_count, List.length_nil, lt_self_iff_false,
      bne_self_eq_false, Bool.false_eq_true, hep, hvs, Bool.not_false, if_true,
      List.nil_append, List.map_id']
  · intro v
    rw [hvmem]
    constructor
    · rintro ⟨p, hp, hr⟩
      obtain ⟨l, hl, rfl⟩ := (hfmem p).mp hp
      rw [hread l hl] at hr
      injection hr with h2
      exact h2 ▸ hl
    · intro hv
      exact ⟨dirOf c v, (hfmem _).mpr ⟨v, hv, rfl⟩, hread v hv⟩

/-- A root series with one locator but no locator file. -/
def exRootNoLoc : DataSeries Nat :=
  .base ⟨["p"], fun l => match l with | [a] => toString a | _ => "",
         1, 1, none, false⟩

/-- A series with `nlocs > 0` and a configured `loc_dfile`, rooted in
`exRootNoLoc`. -/
def exChainNoLoc : DataSeries Nat :=
  .rooted ⟨["p"], fun l => match l with | [b] => toString b | _ => "",
           1, 1, some exChildDf, false⟩ exRootNoLoc

/-- `exChainFs0` after `exChainNoLoc.create([1, 2])`. -/
def exChainNoLocFs : FS :=
  ⟨[["p"], ["p", "1"], ["p", "1", "2"]], [(["p", "1", "2", "cloc"], "2")]⟩

/-- Counterexample to claim C1 as stated: `exChainNoLoc` has `nlocs > 0`
and a configured `loc_dfile`, and `create((1, 2))` succeeds, yet
`existing()` does not return `{(1, 2)}` — it raises the root's
`ValueError`, because the recursion reaches the root series, which has no
locator file.  The claim as stated quantifies over every such series; it
fails on rooted series whose root chain is not enumerable. -/
theorem existing_rooted_unconfigured_cex :
    exChainNoLoc.core.nlocs = 1 ∧
    exChainNoLoc.core.loc_dfile = some exChildDf ∧
    exChainNoLoc.create exChainFs0 [1, 2] = .ok exChainNoLocFs ∧
    exChainNoLoc.existing exChainNoLocFs 2 [] false =
      .error (.valueError "This function does not work without a locator DataFile") :=
  ⟨rfl, rfl, by decide, by decide⟩

/-- Claim C1 (amended): enumeration completeness for a *rootless* series
with `nlocs > 0` and a configured `loc_dfile`.  Under the standing
hypotheses (`C1Hyps`: prefix directory present with nothing beneath it,
valid injective dot-free map output of the configured depth, round-tripping
locator codec) and for distinct locator tuples `L`: before any creation
`existing()` returns the empty tuple; after `create` on each element of
`L`, `existing()` returns exactly the set `L` (order-insensitive set
equality). -/
theorem existing_enumerates_created {β : Type} (c : DSCore β)
    (df : DataFile (List β)) (fs0 : FS) (L : List (List β)) (fuel : Nat)
    (hdf : c.loc_dfile = some df) (hn : 0 < c.nlocs)
    (hnd : L.Nodup) (H : C1Hyps c df fs0 L) :
    (DataSeries.base c).existing fs0 (fuel + 1) [] false = .ok [] ∧
    ∃ fsN res, createAll (DataSeries.base c) fs0 L = .ok fsN ∧
      (DataSeries.base c).existing fsN (fuel + 1) [] false = .ok res ∧
      (∀ v, v ∈ res ↔ v ∈ L) := by
  constructor
  · obtain ⟨res, hrun, hmem⟩ := c1_scan H hdf hn (c1_inv_init H)
      (fun l hl => absurd hl (List.not_mem_nil l)) fuel
    have hres : res = [] := List.eq_nil_iff_forall_not_mem.mpr
      (fun v hv => absurd ((hmem v).mp hv) (List.not_mem_nil v))
    rw [hres] at hrun
    exact hrun
  · obtain ⟨fsN, hca, invN⟩ := c1_createAll_inv H hdf L [] fs0 (c1_inv_init H)
      (fun l hl => absurd hl (List.not_mem_nil l)) (fun l hl => hl) hnd
      (fun l _ hl => absurd hl (List.not_mem_nil l))
    rw [List.append_nil] at invN
    obtain ⟨res, hrun, hmem⟩ := c1_scan H hdf hn invN
      (fun l hl => List.mem_reverse.mp hl) fuel
    exact ⟨fsN, res, hca, hrun, fun v => (hmem v).trans List.mem_reverse⟩

/-- Witness for the amended claim C1: the concrete series `exSeries` at
prefix `/tmp/x`, creating `[1]` and `[2]` from the pristine `exFs`. -/
theorem existing_enumerates_created_witness :
    exSeries.existing exFs 1 [] false = .ok [] ∧
    ∃ fsN res, createAll exSeries exFs [[1], [2]] = .ok fsN ∧
      exSeries.existing fsN 1 [] false = .ok res ∧
      (∀ v, v ∈ res ↔ v ∈ [[1], [2]]) :=
  existing_enumerates_created exSeries.core
    exLocDf exFs [[1], [2]] 0 rfl (by decide) (by decide)
    ⟨by decide, by decide, by decide, by decide, by decide, by decide,
     by decide, by decide, by decide⟩
